import Mathlib

/-!
Shallow embedding of the mesh-generation core of the fealpy repository: the
half-edge domain (`fealpy/mesh/HalfEdgeDomain.py`) with its uniform and
adaptive boundary refinement, the segment-intersection primitive
`is_intersect`, the adaptive clipping loop of `create_voronoi_1`, and the
growable array (`fealpy/common/DynamicArray.py`).

Numpy arrays are modelled as `List`s; integer table entries that are used as
indices are modelled as `Nat`, signed region ids as `Int`, floating point
coordinates as `ℚ`.  Vectorised numpy statements are modelled by explicit
gather/scatter combinators whose semantics follow numpy advanced indexing.
Where numpy would raise on a length mismatch the combinators instead leave
entries unchanged; every theorem below works in the length-matched regime
that the source relies on.
-/

/-! ## Basic geometry -/

abbrev Vec2 := ℚ × ℚ

def origin : Vec2 := (0, 0)

def vsub (a b : Vec2) : Vec2 := (a.1 - b.1, a.2 - b.2)

def vmid (a b : Vec2) : Vec2 := ((a.1 + b.1) / 2, (a.2 + b.2) / 2)

def cross2 (a b : Vec2) : ℚ := a.1 * b.2 - a.2 * b.1

/-! ## The half-edge record

One row of the `(NE, 6)` half-edge table: `halfedge[i, 0]` is the target
vertex, `halfedge[i, 1]` the region (subdomain) id to the left,
`halfedge[i, 2]` the next half-edge, `halfedge[i, 3]` the previous
half-edge, `halfedge[i, 4]` the opposite (twin) half-edge and
`halfedge[i, 5]` the main-half-edge marker. -/

structure HalfEdge where
  target : Nat
  region : Int
  next : Nat
  prev : Nat
  twin : Nat
  primary : Int
  deriving DecidableEq, Repr

def zeroHE : HalfEdge := ⟨0, 0, 0, 0, 0, 0⟩

def heGet (H : List HalfEdge) (i : Nat) : HalfEdge := H.getD i zeroHE

/-- State of a `HalfEdgeDomain` object: vertex array, half-edge table, the
per-vertex fixed flags and the `self.NV` / `self.NE` counter fields. -/
structure HEDomain where
  vertices : List Vec2
  halfedge : List HalfEdge
  fixed : List Bool
  NV : Nat
  NE : Nat
  deriving DecidableEq, Repr

/-! ## Numpy gather/scatter combinators -/

/-- numpy boolean-mask gather `xs[mask]`: keeps the entries of `xs` at the
positions where `mask` is true, in order. -/
def boolGather (xs : List α) (mask : List Bool) : List α :=
  match xs, mask with
  | [], _ => []
  | _, [] => []
  | x :: xs, b :: mask => if b then x :: boolGather xs mask else boolGather xs mask

/-- numpy boolean-mask scatter `xs[mask] = vals` (through an update function
`upd` so that a single column of a row can be written): the k-th true
position of `mask` receives `vals[k]`.  numpy raises when `vals` is shorter
than the number of true positions; here the remaining entries are left
unchanged. -/
def boolScatterWith (xs : List α) (mask : List Bool) (vals : List β)
    (upd : α → β → α) : List α :=
  match xs, mask, vals with
  | [], _, _ => []
  | xs, [], _ => xs
  | xs, _, [] => xs
  | x :: xs, b :: mask, v :: vs =>
    if b then upd x v :: boolScatterWith xs mask vs upd
    else x :: boolScatterWith xs mask (v :: vs) upd

/-- numpy fancy gather `xs[idxs]`. -/
def idxGather (xs : List α) (idxs : List Nat) (d : α) : List α :=
  idxs.map (fun i => xs.getD i d)

/-- numpy fancy scatter `m[idxs] = True` on a boolean array. -/
def setTrueAt (m : List Bool) (idxs : List Nat) : List Bool :=
  idxs.foldl (fun acc j => acc.set j true) m

/-- numpy fancy scatter `halfedge[idxs, 2] = vals` writing the `next` column;
`pairs` is the list of (index, value) pairs, later writes win. -/
def fancyNextScatter (xs : List HalfEdge) (pairs : List (Nat × Nat)) :
    List HalfEdge :=
  pairs.foldl (fun acc p => acc.set p.1 { heGet acc p.1 with next := p.2 }) xs

/-- numpy `np.argsort` on an integer key array: a permutation of
`range key.length` listing the positions of `key` in ascending order of
value (implemented with `List.insertionSort`; the key values are pairwise
distinct everywhere `argsort` is used below, so any correct sort agrees
with numpy). -/
def argsort (key : List Nat) : List Nat :=
  List.insertionSort (fun a b => key.getD a 0 ≤ key.getD b 0)
    (List.range key.length)

/-! ## Rank/select helpers used to state the combinator semantics -/

/-- Number of true entries of a boolean mask. -/
def cnt (m : List Bool) : Nat := m.countP (fun b => b)

/-- Number of true entries strictly before position `i`. -/
def rk (m : List Bool) (i : Nat) : Nat := cnt (m.take i)

/-- Position of the k-th true entry of the mask (one past the end when the
mask has at most `k` true entries). -/
def sel : List Bool → Nat → Nat
  | [], _ => 0
  | true :: _, 0 => 0
  | true :: t, k + 1 => sel t k + 1
  | false :: t, k => sel t k + 1

/-- The positions of the true entries of a mask, in increasing order. -/
def selList (m : List Bool) : List Nat := (List.range (cnt m)).map (sel m)

/-! ## mainMask and friends -/

/-- The boolean main-half-edge mask `halfedge[:, 5] == 1`. -/
def mainMask (H : List HalfEdge) : List Bool :=
  H.map (fun h => decide (h.primary = 1))

/-- The main representative of the undirected edge of half-edge `k`:
`k` itself when `k` is a main half-edge, otherwise its twin. -/
def mainOf (H : List HalfEdge) (k : Nat) : Nat :=
  if (heGet H k).primary = 1 then k else (heGet H k).twin

/-! ## boundary_adaptive_refine (HalfEdgeDomain.py lines 166-223)

Each definition below embeds the correspondingly numbered source line(s);
`M` is the caller's `isMarkedHEdge` array. -/

/-- Line 185: `isMarkedHEdge[halfedge[isMarkedHEdge, 4]] = True` — the
marking symmetrised so that an undirected edge is refined as a unit.  The
source performs this write in place on the caller's array. -/
def aM1 (H : List HalfEdge) (M : List Bool) : List Bool :=
  setTrueAt M ((boolGather H M).map (fun h => h.twin))

/-- Line 187: `flag0 = isMainHEdge & isMarkedHEdge`. -/
def aFlag0 (H : List HalfEdge) (M : List Bool) : List Bool :=
  List.zipWith (fun a b => a && b) (mainMask H) (aM1 H M)

/-- Line 188: `idx = halfedge[flag0, 4]`. -/
def aIdxL (H : List HalfEdge) (M : List Bool) : List Nat :=
  (boolGather H (aFlag0 H M)).map (fun h => h.twin)

/-- Lines 189-192: the edge centers; the geometric midpoints of the marked
edges unless an explicit `edgecenter` array is supplied. -/
def aEc (M : List Bool) (V : List Vec2) (H : List HalfEdge)
    (edgecenter : Option (List Vec2)) : List Vec2 :=
  match edgecenter with
  | some e => e
  | none =>
    List.zipWith vmid
      ((boolGather H (aFlag0 H M)).map (fun h => V.getD h.target origin))
      ((aIdxL H M).map (fun j => V.getD (heGet H j).target origin))

/-- Line 197: `flag1 = isMainHEdge[isMarkedHEdge]`. -/
def aFlag1 (H : List HalfEdge) (M : List Bool) : List Bool :=
  boolGather (mainMask H) (aM1 H M)

/-- Lines 196-205: the table `halfedge1` of newly created half-edges.
Line 198 numbers the new midpoint vertices `NV, NV+1, ...` on the rows that
are main half-edges; lines 199-200 copy the new vertex number of the twin
onto the non-main rows by sorting the twin indices (`np.argsort`) and
index-matching; lines 202-205 copy region, prev, twin and primary from the
marked rows of the old table.  Line 196: `halfedge1 = np.zeros((NE1, 6))`. -/
def aH1a (M : List Bool) (V : List Vec2) (H : List HalfEdge)
    (edgecenter : Option (List Vec2)) : List HalfEdge :=
  List.replicate (2 * (aEc M V H edgecenter).length) zeroHE

/-- Line 198: `halfedge1[flag1, 0] = range(NV, NV + NE1//2)`. -/
def aH1b (NV : Nat) (M : List Bool) (V : List Vec2) (H : List HalfEdge)
    (edgecenter : Option (List Vec2)) : List HalfEdge :=
  boolScatterWith (aH1a M V H edgecenter) (aFlag1 H M)
    (List.range' NV (2 * (aEc M V H edgecenter).length / 2))
    (fun h v => { h with target := v })

/-- Lines 199-200: `idx0 = np.argsort(idx)` and
`halfedge1[~flag1, 0] = halfedge1[flag1, 0][idx0]`. -/
def aH1c (NV : Nat) (M : List Bool) (V : List Vec2) (H : List HalfEdge)
    (edgecenter : Option (List Vec2)) : List HalfEdge :=
  boolScatterWith (aH1b NV M V H edgecenter) ((aFlag1 H M).map (fun b => !b))
    (idxGather ((boolGather (aH1b NV M V H edgecenter) (aFlag1 H M)).map
      (fun h => h.target)) (argsort (aIdxL H M)) 0)
    (fun h v => { h with target := v })

/-- Lines 202-205: copy region, prev, twin and primary from the marked rows
of the old table (`halfedge1[:, c] = halfedge[isMarkedHEdge, c]`). -/
def aH1 (NV : Nat) (M : List Bool) (V : List Vec2) (H : List HalfEdge)
    (edgecenter : Option (List Vec2)) : List HalfEdge :=
  let gm := boolGather H (aM1 H M)
  let h1d := List.zipWith (fun h1 h => { h1 with region := h.region })
    (aH1c NV M V H edgecenter) gm
  let h1e := List.zipWith (fun h1 h => { h1 with prev := h.prev }) h1d gm
  let h1f := List.zipWith (fun h1 h => { h1 with twin := h.twin }) h1e gm
  List.zipWith (fun h1 h => { h1 with primary := h.primary }) h1f gm

/-- Lines 207-209: the in-place rewiring of the marked rows of the old
table: `halfedge[isMarkedHEdge, 3] = range(NE, NE + NE1)` and then
`halfedge[isMarkedHEdge, 4] = halfedge[halfedge[isMarkedHEdge, 4], 3]`.
This is the state in which the caller's half-edge array object is left
behind.  Line 207: `halfedge[isMarkedHEdge, 3] = range(NE, NE + NE1)`. -/
def aHba (NE : Nat) (M : List Bool) (V : List Vec2) (H : List HalfEdge)
    (edgecenter : Option (List Vec2)) : List HalfEdge :=
  boolScatterWith H (aM1 H M)
    (List.range' NE (2 * (aEc M V H edgecenter).length))
    (fun h v => { h with prev := v })

/-- Lines 208-209: the twin rewiring
`halfedge[isMarkedHEdge, 4] = halfedge[halfedge[isMarkedHEdge, 4], 3]`. -/
def aHb (NE : Nat) (M : List Bool) (V : List Vec2) (H : List HalfEdge)
    (edgecenter : Option (List Vec2)) : List HalfEdge :=
  let ha := aHba NE M V H edgecenter
  let idx2 := (boolGather ha (aM1 H M)).map (fun h => h.twin)
  boolScatterWith ha (aM1 H M) (idx2.map (fun j => (heGet ha j).prev))
    (fun h v => { h with twin := v })

/-- Lines 211-212: concatenate old and new rows and rebuild the `next`
column as the inverse of the `prev` column:
line 211: `halfedge = np.r_[halfedge, halfedge1]`. -/
def aHc (NV NE : Nat) (M : List Bool) (V : List Vec2) (H : List HalfEdge)
    (edgecenter : Option (List Vec2)) : List HalfEdge :=
  aHb NE M V H edgecenter ++ aH1 NV M V H edgecenter

/-- Line 212: `halfedge[halfedge[:, 3], 2] = range(NE + NE1)`. -/
def aNewH (NV NE : Nat) (M : List Bool) (V : List Vec2) (H : List HalfEdge)
    (edgecenter : Option (List Vec2)) : List HalfEdge :=
  fancyNextScatter (aHc NV NE M V H edgecenter)
    ((List.range (NE + 2 * (aEc M V H edgecenter).length)).map
      (fun g => ((heGet (aHc NV NE M V H edgecenter) g).prev, g)))

/-- The in-place call `self.boundary_adaptive_refine(isMarkedHEdge,
edgecenter=...)` (lines 166-221): appends the edge centers to the vertex
array, installs the new half-edge table, appends `False` fixed flags for the
new vertices and updates the `NV` / `NE` counters. -/
def boundary_adaptive_refine (d : HEDomain) (M : List Bool)
    (edgecenter : Option (List Vec2)) : HEDomain :=
  let ec := aEc M d.vertices d.halfedge edgecenter
  { vertices := d.vertices ++ ec
    halfedge := aNewH d.NV d.NE M d.vertices d.halfedge edgecenter
    fixed := d.fixed ++ List.replicate ec.length false
    NV := d.NV + 2 * ec.length / 2
    NE := d.NE + 2 * ec.length }

/-- The functional-mode call `boundary_adaptive_refine(isMarkedHEdge,
vertices=V, halfedge=H, edgecenter=...)` (lines 172-174, 181-183, 222-223).
The first component is the value returned to the caller, `(ec, halfedge)`:
only the new edge centers, not the refined vertex array.  The second
component is the state in which the caller's `isMarkedHEdge` and `halfedge`
array objects are left (both are mutated in place by lines 185 and
207-209); the supplied vertex array is never mutated. -/
def boundary_adaptive_refine_fn (M : List Bool) (V : List Vec2)
    (H : List HalfEdge) (edgecenter : Option (List Vec2)) :
    (List Vec2 × List HalfEdge) × List Bool × List HalfEdge :=
  ((aEc M V H edgecenter, aNewH V.length H.length M V H edgecenter),
    aM1 H M, aHb H.length M V H edgecenter)

/-- The full method: dispatches on whether vertex/half-edge arrays were
supplied (`inplace` flag, lines 169-183).  Returns the new `self` state, the
optional return value and, in functional mode, the post-call contents of
the caller's half-edge array object. -/
def boundary_adaptive_refine_method (d : HEDomain) (M : List Bool)
    (args : Option (List Vec2 × List HalfEdge))
    (edgecenter : Option (List Vec2)) :
    HEDomain × Option (List Vec2 × List HalfEdge) ×
      Option (List Bool × List HalfEdge) :=
  match args with
  | none => (boundary_adaptive_refine d M edgecenter, none, none)
  | some (V, H) =>
    let r := boundary_adaptive_refine_fn M V H edgecenter
    (d, some r.1, some r.2)

/-! ## boundary_uniform_refine (HalfEdgeDomain.py lines 225-278) -/

/-- Line 247: `idx = halfedge[isMainHEdge, 4]`. -/
def uIdxL (H : List HalfEdge) : List Nat :=
  (boolGather H (mainMask H)).map (fun h => h.twin)

/-- Line 248: the midpoints
`ec = (vertices[halfedge[isMainHEdge, 0]] + vertices[halfedge[idx, 0]]) / 2`. -/
def uEc (V : List Vec2) (H : List HalfEdge) : List Vec2 :=
  List.zipWith vmid
    ((boolGather H (mainMask H)).map (fun h => V.getD h.target origin))
    ((uIdxL H).map (fun j => V.getD (heGet H j).target origin))

/-- Lines 251-259: the table `halfedge1` of new half-edges (same splicing
as `aH1`, with every half-edge treated as marked and `NE` rows).
Line 251: `halfedge1 = np.zeros((NE, 6))`. -/
def uH1a (NE : Nat) : List HalfEdge := List.replicate NE zeroHE

/-- Line 252: `halfedge1[isMainHEdge, 0] = range(NV, NV + NE//2)`. -/
def uH1b (NV NE : Nat) (H : List HalfEdge) : List HalfEdge :=
  boolScatterWith (uH1a NE) (mainMask H) (List.range' NV (NE / 2))
    (fun h v => { h with target := v })

/-- Lines 253-254: `idx0 = np.argsort(idx)` and
`halfedge1[~isMainHEdge, 0] = halfedge1[isMainHEdge, 0][idx0]`. -/
def uH1c (NV NE : Nat) (H : List HalfEdge) : List HalfEdge :=
  boolScatterWith (uH1b NV NE H) ((mainMask H).map (fun b => !b))
    (idxGather ((boolGather (uH1b NV NE H) (mainMask H)).map (fun h => h.target))
      (argsort (uIdxL H)) 0)
    (fun h v => { h with target := v })

/-- Lines 256-259: copy region, prev, twin and primary columns from the old
table. -/
def uH1 (NV NE : Nat) (H : List HalfEdge) : List HalfEdge :=
  let h1d := List.zipWith (fun h1 h => { h1 with region := h.region })
    (uH1c NV NE H) H
  let h1e := List.zipWith (fun h1 h => { h1 with prev := h.prev }) h1d H
  let h1f := List.zipWith (fun h1 h => { h1 with twin := h.twin }) h1e H
  List.zipWith (fun h1 h => { h1 with primary := h.primary }) h1f H

/-- Lines 261-263: `halfedge[:, 3] = range(NE, 2*NE)` and
`halfedge[:, 4] = halfedge[halfedge[:, 4], 3]`; the state in which the
input half-edge array object is left behind.
Line 261: `halfedge[:, 3] = range(NE, 2*NE)`. -/
def uHba (NE : Nat) (H : List HalfEdge) : List HalfEdge :=
  List.zipWith (fun h v => { h with prev := v }) H (List.range' NE NE)

/-- Lines 262-263: `halfedge[:, 4] = halfedge[halfedge[:, 4], 3]`. -/
def uHb (NE : Nat) (H : List HalfEdge) : List HalfEdge :=
  let ha := uHba NE H
  let idx2 := ha.map (fun h => h.twin)
  List.zipWith (fun h v => { h with twin := v }) ha
    (idx2.map (fun j => (heGet ha j).prev))

/-- Lines 265-267: concatenation and `next`-column rebuild
line 266: `halfedge = np.r_[halfedge, halfedge1]`. -/
def uHc (NV NE : Nat) (H : List HalfEdge) : List HalfEdge :=
  uHb NE H ++ uH1 NV NE H

/-- Line 267: `halfedge[halfedge[:, 3], 2] = range(2*NE)`. -/
def uNewH (NV NE : Nat) (H : List HalfEdge) : List HalfEdge :=
  fancyNextScatter (uHc NV NE H)
    ((List.range (2 * NE)).map (fun g => ((heGet (uHc NV NE H) g).prev, g)))

/-- One in-place level of `boundary_uniform_refine` (lines 236-276):
`self.vertices = np.r_[vertices, ec]`, the new table, appended fixed flags,
`self.NV += NE // 2`, `self.NE *= 2`. -/
def uniformStep (d : HEDomain) : HEDomain :=
  { vertices := d.vertices ++ uEc d.vertices d.halfedge
    halfedge := uNewH d.NV d.NE d.halfedge
    fixed := d.fixed ++ List.replicate (uEc d.vertices d.halfedge).length false
    NV := d.NV + d.NE / 2
    NE := 2 * d.NE }

/-- The in-place call `self.boundary_uniform_refine(n)`: `n` repetitions of
the refinement level (the `for i in range(n)` loop, line 235). -/
def boundary_uniform_refine (d : HEDomain) : Nat → HEDomain
  | 0 => d
  | n + 1 => boundary_uniform_refine (uniformStep d) n

/-- The functional-mode call `boundary_uniform_refine(n, vertices=V,
halfedge=H)`: the body `return`s inside the first loop iteration (line 278),
so exactly one level is performed whenever `n ≥ 1` and nothing at all when
`n = 0` (the loop body never runs and the method returns `None`).  The first
component is the returned `(vertices, halfedge)` pair; the second is the
state in which the caller's half-edge array object is left (its prev/twin
columns are overwritten in place by lines 261-263 before the concatenation
rebinds the local name).  The supplied vertex array is never mutated. -/
def boundary_uniform_refine_fn (n : Nat) (V : List Vec2) (H : List HalfEdge) :
    Option (List Vec2 × List HalfEdge) × List HalfEdge :=
  if n = 0 then (none, H)
  else (some (V ++ uEc V H, uNewH V.length H.length H), uHb H.length H)

/-- The full method: dispatch on whether arrays were supplied
(lines 226-233). -/
def boundary_uniform_refine_method (d : HEDomain) (n : Nat)
    (args : Option (List Vec2 × List HalfEdge)) :
    HEDomain × Option (List Vec2 × List HalfEdge) × Option (List HalfEdge) :=
  match args with
  | none => (boundary_uniform_refine d n, none, none)
  | some (V, H) =>
    let r := boundary_uniform_refine_fn n V H
    (d, r.1, some r.2)

/-! ## is_intersect (HalfEdgeDomain.py lines 496-521) -/

/-- Embedding of `is_intersect(p0, p1, v0, v1)`.  The intermediate arrays
`s, r, v, c0, c1, c2, isColinear, isParallel, flag, t, u` are computed
exactly as in the source.  The final line 517,
`isIntersect = flag & t >= 0.0 & t <= 1.0 & u >= 0.0 & u <= 1.0`,
is a Python operator-precedence slip: `&` binds tighter than the
comparisons, so the first operation evaluated is `np.bitwise_and(flag, t)`
between a boolean and a float array, which numpy rejects with a
`TypeError` for every input; the embedding therefore always returns that
error. -/
def is_intersect (p0 p1 v0 v1 : List Vec2) : Except String (List Bool) :=
  let s := List.zipWith vsub p1 p0
  let r := List.zipWith vsub v1 v0
  let v := List.zipWith vsub v0 p1
  let n := s.length
  let c0 := List.zipWith cross2 r s
  let c1 := List.zipWith cross2 v r
  let c2 := List.zipWith cross2 v s
  let isColinear := List.zipWith (fun a b => decide (|a| = 0) && decide (|b| = 0)) c0 c1
  let isParallel := List.zipWith (fun a b => decide (|a| = 0) && !decide (|b| = 0)) c0 c1
  let flag := List.zipWith (fun a b => !a && !b) isColinear isParallel
  let t := boolScatterWith (List.replicate n (0 : ℚ)) flag
    (List.zipWith (fun a b => a / b) (boolGather c2 flag) (boolGather c0 flag))
    (fun _ w => w)
  let u := boolScatterWith (List.replicate n (0 : ℚ)) flag
    (List.zipWith (fun a b => a / b) (boolGather c1 flag) (boolGather c0 flag))
    (fun _ w => w)
  let _unusedT := t
  let _unusedU := u
  Except.error "TypeError"

/-! ## create_voronoi_1 (HalfEdgeDomain.py lines 391-462)

The scipy outputs are external-library data and enter as parameters:
`vorVertices` for `voronoi.vertices`, `ridgePoints` for
`voronoi.ridge_points` (an integer ndarray) and `ridgeVertices` for
`voronoi.ridge_vertices`, which scipy documents and returns as a plain
Python *list* of lists of ints (`create_finite_voronoi` wraps it in
`np.array` on line 304 before use; this method does not). -/

/-- Indexing a Python `list` with a tuple, as in `rv[:, 0]` on line 411
when `rv` is `voronoi.ridge_vertices`: Python raises
`TypeError: list indices must be integers or slices, not tuple`, whatever
the list holds. -/
def pyListTupleIndex {β : Type} (_l : List (List Int)) : Except String β :=
  Except.error "TypeError"

/-- Embedding of `create_voronoi_1(points)` (lines 391-462).  The body
executes lines 401-410 (the generator count, the scipy aliases `rp`, `rv`,
`nv` and the rotation matrix `w`) and then dies on line 411:
`isInfVertices = (rv[:, 0] == -1)` tuple-indexes the plain list `rv` —
a `TypeError` raised before the infinite-edge conversion, the generator
adjacency matrix and the `while True` clipping loop (lines 432-462) are
ever reached.  The method body has no `return`, so its value, were it ever
produced, would be `None` (`Unit`). -/
def create_voronoi_1 (d : HEDomain) (points : List Vec2)
    (vorVertices : List Vec2) (ridgePoints : List (Nat × Nat))
    (ridgeVertices : List (List Int)) : Except String Unit :=
  let NG := points.length
  let rp := ridgePoints
  let rv := ridgeVertices
  let nv := vorVertices.length
  let w : List (List Int) := [[0, -1], [1, 0]]
  let _unusedPre := (d.NV, NG, rp, nv, w)
  pyListTupleIndex rv

/-! ## DynamicArray (fealpy/common/DynamicArray.py) -/

structure DynamicArray (α : Type) where
  shape0 : Nat
  size : Nat
  capacity : Nat
  data : List α
  deriving DecidableEq, Repr

/-- Construction from an ndarray (`__init__`, lines 62-70): `shape` is
recorded once, `size = shape[0]`, `capacity = max(size, capacity)` and the
backing store is `np.empty(capacity)` with the first `size` entries set to
the data (the uninitialised tail is modelled with `default`). -/
def DynamicArray.fromList [Inhabited α] (xs : List α) (cap : Nat) :
    DynamicArray α :=
  { shape0 := xs.length
    size := xs.length
    capacity := max xs.length cap
    data := xs ++ List.replicate (max xs.length cap - xs.length) default }

/-- Semantics of `np.resize(d, n)`: the data repeated cyclically and
truncated to length `n` (zero-filled via `default` when `d` is empty). -/
def npResize [Inhabited α] (d : List α) (n : Nat) : List α :=
  (List.range n).map
    (fun i => if d.length = 0 then default else d.getD (i % d.length) default)

/-- Lines 81-83. -/
def DynamicArray.resize [Inhabited α] (a : DynamicArray α) (ns : Nat) :
    DynamicArray α :=
  { a with data := npResize a.data ns, capacity := ns }

/-- Lines 91-104: `increase_size(s)` grows when
`required_size >= self.capacity` (note: `>=`, not `>`) to
`max(2*capacity, required_size)` and returns the view
`data[size : required_size]` together with the new state. -/
def DynamicArray.increase_size [Inhabited α] (a : DynamicArray α) (s : Nat) :
    List α × DynamicArray α :=
  let required := a.size + s
  let a1 := if a.capacity ≤ required then a.resize (max (2 * a.capacity) required) else a
  ((a1.data.drop a.size).take (required - a.size), { a1 with size := required })

/-- Lines 106-118: `decrease_size(s)`; the `assert s <= self.size` is
modelled with `Option`. -/
def DynamicArray.decrease_size (a : DynamicArray α) (s : Nat) :
    Option (List α × DynamicArray α) :=
  if s ≤ a.size then
    some ((a.data.drop (a.size - s)).take s, { a with size := a.size - s })
  else none

/-- Lines 120-134. -/
def DynamicArray.extend [Inhabited α] (a : DynamicArray α) (values : List α) :
    DynamicArray α :=
  let required := a.size + values.length
  let a1 := if a.capacity ≤ required then a.resize (max (2 * a.capacity) required) else a
  { a1 with
    data := a1.data.take a1.size ++ values ++ a1.data.drop required,
    size := required }

/-- Lines 136-140. -/
def DynamicArray.shrink [Inhabited α] (a : DynamicArray α) : DynamicArray α :=
  a.resize a.size

/-- Lines 142-143: `__len__` returns `self.shape[0]`. -/
def DynamicArray.len (a : DynamicArray α) : Nat := a.shape0

/-- The region addressed by `__getitem__` / `__setitem__`: `data[:size]`
(lines 75-79). -/
def DynamicArray.liveSlice (a : DynamicArray α) : List α := a.data.take a.size

/-- An abstract mutating operation on a `DynamicArray`, used to state frame
properties over arbitrary operation sequences. -/
inductive DAOp (α : Type) where
  | inc (s : Nat)
  | dec (s : Nat)
  | ext (vals : List α)
  deriving DecidableEq, Repr

def applyOp [Inhabited α] (a : DynamicArray α) : DAOp α → Option (DynamicArray α)
  | DAOp.inc s => some (a.increase_size s).2
  | DAOp.dec s => (a.decrease_size s).map (fun p => p.2)
  | DAOp.ext v => some (a.extend v)

def applyOps [Inhabited α] : List (DAOp α) → DynamicArray α → Option (DynamicArray α)
  | [], a => some a
  | op :: ops, a =>
    match applyOp a op with
    | none => none
    | some b => applyOps ops b

/-- The net change in `size` effected by one operation. -/
def DAOp.delta : DAOp α → Int
  | DAOp.inc s => (s : Int)
  | DAOp.dec s => -(s : Int)
  | DAOp.ext v => (v.length : Int)

def netDelta (ops : List (DAOp α)) : Int := (ops.map DAOp.delta).sum

/-! ## Validity predicates -/

/-- The structural half-edge invariants: all pointers in range,
`twin(twin(h)) = h`, `next(prev(h)) = h`, `prev(next(h)) = h`, and for
every undirected edge exactly one of the two twin half-edges has
`primary == 1`. -/
def validTopo (H : List HalfEdge) : Bool :=
  (List.range H.length).all (fun i =>
    let h := heGet H i
    decide (h.twin < H.length) && decide (h.prev < H.length) &&
    decide (h.next < H.length) &&
    decide ((heGet H h.twin).twin = i) &&
    decide ((heGet H h.prev).next = i) &&
    decide ((heGet H h.next).prev = i) &&
    decide ((h.primary = 1) ↔ ¬(heGet H h.twin).primary = 1))

/-- A well-formed `HalfEdgeDomain` state: counter fields in sync with the
array lengths (as the constructor establishes), targets in range, and the
structural invariants. -/
def validDomain (d : HEDomain) : Bool :=
  decide (d.NV = d.vertices.length) && decide (d.NE = d.halfedge.length) &&
  decide (d.fixed.length = d.NV) &&
  d.halfedge.all (fun h => decide (h.target < d.NV)) &&
  validTopo d.halfedge

/-- The midpoint of the undirected edge represented by the j-th main
half-edge of a domain. -/
def edgeMidpoint (d : HEDomain) (j : Nat) : Vec2 :=
  let m := sel (mainMask d.halfedge) j
  vmid (d.vertices.getD (heGet d.halfedge m).target origin)
    (d.vertices.getD (heGet d.halfedge (heGet d.halfedge m).twin).target origin)

/-! ## Concrete instances -/

/-- The unit-square boundary: 4 corners, 8 half-edges (4 interior, region 1,
counterclockwise, marked primary; 4 exterior, region 0). -/
def sqV : List Vec2 := [(0, 0), (1, 0), (1, 1), (0, 1)]

def sqH : List HalfEdge :=
  [⟨1, 1, 1, 3, 4, 1⟩, ⟨2, 1, 2, 0, 5, 1⟩, ⟨3, 1, 3, 1, 6, 1⟩, ⟨0, 1, 0, 2, 7, 1⟩,
   ⟨0, 0, 7, 5, 0, 0⟩, ⟨1, 0, 4, 6, 1, 0⟩, ⟨2, 0, 5, 7, 2, 0⟩, ⟨3, 0, 6, 4, 3, 0⟩]

def sqDomain : HEDomain :=
  { vertices := sqV, halfedge := sqH, fixed := [true, true, true, true],
    NV := 4, NE := 8 }

/-- A marking that selects a single half-edge (symmetrisation will add its
twin). -/
def markOne : List Bool := [false, true, false, false, false, false, false, false]

/-- A dynamic array with size 1 and capacity 2: appending one element
reaches `required_size == capacity` exactly. -/
def da0 : DynamicArray Nat := DynamicArray.fromList [0] 2

instance : IsAntisymm Nat (· < ·) :=
  ⟨fun a b h1 h2 => absurd (h1.trans h2) (lt_irrefl a)⟩

/-- Propositional form of the twin-related invariants: twin pointers in
range, involutive, and exactly one primary half-edge per undirected edge. -/
def twinOK (H : List HalfEdge) : Prop :=
  ∀ i, i < H.length →
    (heGet H i).twin < H.length ∧
    (heGet H (heGet H i).twin).twin = i ∧
    ((heGet H i).primary = 1 ↔ ¬(heGet H (heGet H i).twin).primary = 1)

/-- Propositional form of the prev/next invariants. -/
def prevOK (H : List HalfEdge) : Prop :=
  ∀ i, i < H.length →
    (heGet H i).prev < H.length ∧ (heGet H i).next < H.length ∧
    (heGet H (heGet H i).prev).next = i ∧ (heGet H (heGet H i).next).prev = i

/-- A marking compatible with a table: right length and closed under twins
(as produced by the line-185 symmetrisation). -/
def markOK (H : List HalfEdge) (Mk : List Bool) : Prop :=
  Mk.length = H.length ∧
  ∀ i, i < H.length → Mk.getD ((heGet H i).twin) false = Mk.getD i false

/-- The non-main marked mask `~isMainHEdge & isMarkedHEdge` (the positions
addressed through `~flag1` in the gathered index space of line 200). -/
def aNMask (H : List HalfEdge) (M : List Bool) : List Bool :=
  List.zipWith (fun a b => a && b) ((mainMask H).map (fun b => !b)) (aM1 H M)

/-! ## Toolkit: getD lemmas -/

theorem tk_getD_map (f : α → β) (l : List α) (i : Nat) (hi : i < l.length)
    (d : β) (dl : α) : (l.map f).getD i d = f (l.getD i dl) := by
  induction l generalizing i with
  | nil => simp at hi
  | cons a l ih =>
    cases i with
    | zero => rfl
    | succ i => exact ih i (by simpa using hi)

theorem tk_getD_zipWith (f : α → β → γ) (l : List α) (t : List β) (i : Nat)
    (hl : i < l.length) (ht : i < t.length) (d : γ) (dl : α) (dt : β) :
    (List.zipWith f l t).getD i d = f (l.getD i dl) (t.getD i dt) := by
  induction l generalizing t i with
  | nil => simp at hl
  | cons a l ih =>
    cases t with
    | nil => simp at ht
    | cons b t =>
      cases i with
      | zero => rfl
      | succ i => exact ih t i (by simpa using hl) (by simpa using ht)

theorem tk_getD_range' (a n i : Nat) (hi : i < n) (d : Nat) :
    (List.range' a n).getD i d = a + i := by
  induction n generalizing a i with
  | zero => simp at hi
  | succ n ih =>
    cases i with
    | zero => simp [List.range']
    | succ i =>
      have : (List.range' a (n + 1)).getD (i + 1) d
          = (List.range' (a + 1) n).getD i d := rfl
      rw [this, ih (a + 1) i (by omega)]
      omega

theorem tk_getD_range (n i : Nat) (hi : i < n) (d : Nat) :
    (List.range n).getD i d = i := by
  rw [List.range_eq_range', tk_getD_range' 0 n i hi d]
  omega

theorem tk_getD_replicate (a : α) (n i : Nat) (hi : i < n) (d : α) :
    (List.replicate n a).getD i d = a := by
  induction n generalizing i with
  | zero => simp at hi
  | succ n ih =>
    cases i with
    | zero => rfl
    | succ i => exact ih i (by omega)

theorem tk_getD_set_self (l : List α) (i : Nat) (a : α) (hi : i < l.length)
    (d : α) : (l.set i a).getD i d = a := by
  induction l generalizing i with
  | nil => simp at hi
  | cons x l ih =>
    cases i with
    | zero => rfl
    | succ i => exact ih i (by simpa using hi)

theorem tk_getD_set_ne (l : List α) (i j : Nat) (a : α) (hij : i ≠ j)
    (d : α) : (l.set j a).getD i d = l.getD i d := by
  induction l generalizing i j with
  | nil => rfl
  | cons x l ih =>
    cases j with
    | zero =>
      cases i with
      | zero => exact absurd rfl hij
      | succ i => rfl
    | succ j =>
      cases i with
      | zero => rfl
      | succ i => exact ih i j (by omega)

theorem tk_getD_take (l : List α) (n i : Nat) (hi : i < n) (d : α) :
    (l.take n).getD i d = l.getD i d := by
  induction l generalizing n i with
  | nil => simp
  | cons x l ih =>
    cases n with
    | zero => simp at hi
    | succ n =>
      cases i with
      | zero => rfl
      | succ i => exact ih n i (by omega)


/-! ## Toolkit: cnt, rk, sel -/

theorem cnt_nil : cnt ([] : List Bool) = 0 := rfl

theorem cnt_cons_true (m : List Bool) : cnt (true :: m) = cnt m + 1 := by
  simp [cnt, List.countP_cons]

theorem cnt_cons_false (m : List Bool) : cnt (false :: m) = cnt m := by
  simp [cnt, List.countP_cons]

theorem cnt_le_length (m : List Bool) : cnt m ≤ m.length :=
  List.countP_le_length _

theorem rk_zero (m : List Bool) : rk m 0 = 0 := rfl

theorem rk_cons_succ_true (m : List Bool) (i : Nat) :
    rk (true :: m) (i + 1) = rk m i + 1 := by
  simp [rk, List.take_succ_cons, cnt_cons_true]

theorem rk_cons_succ_false (m : List Bool) (i : Nat) :
    rk (false :: m) (i + 1) = rk m i := by
  simp [rk, List.take_succ_cons, cnt_cons_false]

theorem rk_length (m : List Bool) : rk m m.length = cnt m := by
  simp [rk, List.take_length]

theorem rk_ge_length (m : List Bool) (i : Nat) (h : m.length ≤ i) :
    rk m i = cnt m := by
  simp [rk, List.take_of_length_le h]

theorem sel_lt_length (m : List Bool) (k : Nat) (hk : k < cnt m) :
    sel m k < m.length := by
  induction m generalizing k with
  | nil => simp [cnt_nil] at hk
  | cons b m ih =>
    cases b with
    | false =>
      rw [cnt_cons_false] at hk
      have := ih k hk
      simp only [sel, List.length_cons]
      omega
    | true =>
      cases k with
      | zero => simp [sel]
      | succ k =>
        rw [cnt_cons_true] at hk
        have := ih k (by omega)
        simp only [sel, List.length_cons]
        omega

theorem getD_sel (m : List Bool) (k : Nat) (hk : k < cnt m) :
    m.getD (sel m k) false = true := by
  induction m generalizing k with
  | nil => simp [cnt_nil] at hk
  | cons b m ih =>
    cases b with
    | false =>
      rw [cnt_cons_false] at hk
      exact ih k hk
    | true =>
      cases k with
      | zero => rfl
      | succ k =>
        rw [cnt_cons_true] at hk
        exact ih k (by omega)

theorem rk_sel (m : List Bool) (k : Nat) (hk : k < cnt m) :
    rk m (sel m k) = k := by
  induction m generalizing k with
  | nil => simp [cnt_nil] at hk
  | cons b m ih =>
    cases b with
    | false =>
      rw [cnt_cons_false] at hk
      show rk (false :: m) (sel m k + 1) = k
      rw [rk_cons_succ_false]
      exact ih k hk
    | true =>
      cases k with
      | zero => rfl
      | succ k =>
        rw [cnt_cons_true] at hk
        show rk (true :: m) (sel m k + 1) = k + 1
        rw [rk_cons_succ_true]
        simpa using ih k (by omega)

theorem sel_rk (m : List Bool) (i : Nat) (hi : i < m.length)
    (ht : m.getD i false = true) : sel m (rk m i) = i := by
  induction m generalizing i with
  | nil => simp at hi
  | cons b m ih =>
    cases i with
    | zero =>
      cases b with
      | false => simp [List.getD_cons_zero] at ht
      | true => rfl
    | succ i =>
      have hi' : i < m.length := by simpa using hi
      have ht' : m.getD i false = true := ht
      cases b with
      | false =>
        rw [rk_cons_succ_false]
        simpa [sel] using ih i hi' ht'
      | true =>
        rw [rk_cons_succ_true]
        show sel (true :: m) (rk m i + 1) = i + 1
        simpa [sel] using ih i hi' ht'

theorem rk_lt_cnt (m : List Bool) (i : Nat) (hi : i < m.length)
    (ht : m.getD i false = true) : rk m i < cnt m := by
  induction m generalizing i with
  | nil => simp at hi
  | cons b m ih =>
    cases i with
    | zero =>
      cases b with
      | false => simp [List.getD_cons_zero] at ht
      | true => simp [rk_zero, cnt_cons_true]
    | succ i =>
      have := ih i (by simpa using hi) ht
      cases b with
      | false => rw [rk_cons_succ_false, cnt_cons_false]; exact this
      | true => rw [rk_cons_succ_true, cnt_cons_true]; omega

theorem rk_le_cnt (m : List Bool) (i : Nat) : rk m i ≤ cnt m := by
  simp only [rk, cnt]
  exact List.Sublist.countP_le _ (List.take_sublist i m)

theorem sel_strictMono (m : List Bool) (j k : Nat) (hjk : j < k)
    (hk : k < cnt m) : sel m j < sel m k := by
  induction m generalizing j k with
  | nil => simp [cnt_nil] at hk
  | cons b m ih =>
    cases b with
    | false =>
      rw [cnt_cons_false] at hk
      have := ih j k hjk hk
      simp only [sel]
      omega
    | true =>
      cases k with
      | zero => omega
      | succ k =>
        rw [cnt_cons_true] at hk
        cases j with
        | zero => simp [sel]
        | succ j =>
          have := ih j k (by omega) (by omega)
          simp only [sel]
          omega

/-! ## Toolkit: gather/scatter characterisations -/

theorem boolGather_length (xs : List α) (mask : List Bool)
    (h : xs.length = mask.length) : (boolGather xs mask).length = cnt mask := by
  induction xs generalizing mask with
  | nil =>
    cases mask with
    | nil => rfl
    | cons b m => simp at h
  | cons x xs ih =>
    cases mask with
    | nil => simp at h
    | cons b m =>
      have h' : xs.length = m.length := by simpa using h
      cases b with
      | false => rw [cnt_cons_false]; simpa [boolGather] using ih m h'
      | true => rw [cnt_cons_true]; simpa [boolGather] using ih m h'

theorem boolGather_getD (xs : List α) (mask : List Bool)
    (h : xs.length = mask.length) (k : Nat) (hk : k < cnt mask) (d : α) :
    (boolGather xs mask).getD k d = xs.getD (sel mask k) d := by
  induction xs generalizing mask k with
  | nil =>
    cases mask with
    | nil => simp [cnt_nil] at hk
    | cons b m => simp at h
  | cons x xs ih =>
    cases mask with
    | nil => simp at h
    | cons b m =>
      have h' : xs.length = m.length := by simpa using h
      cases b with
      | false =>
        rw [cnt_cons_false] at hk
        show (boolGather xs m).getD k d = (x :: xs).getD (sel m k + 1) d
        simpa using ih m h' k hk
      | true =>
        cases k with
        | zero => simp [boolGather, sel]
        | succ k =>
          rw [cnt_cons_true] at hk
          show (x :: boolGather xs m).getD (k + 1) d
              = (x :: xs).getD (sel m k + 1) d
          simpa using ih m h' k (by omega)

theorem boolScatterWith_length (xs : List α) (mask : List Bool)
    (vals : List β) (upd : α → β → α) :
    (boolScatterWith xs mask vals upd).length = xs.length := by
  induction xs generalizing mask vals with
  | nil => simp [boolScatterWith]
  | cons x xs ih =>
    cases mask with
    | nil => simp [boolScatterWith]
    | cons b m =>
      cases vals with
      | nil => simp [boolScatterWith]
      | cons v vs =>
        cases b with
        | false => simpa [boolScatterWith] using ih m (v :: vs)
        | true => simpa [boolScatterWith] using ih m vs

theorem boolScatterWith_vals_nil (xs : List α) (mask : List Bool)
    (upd : α → β → α) : boolScatterWith xs mask [] upd = xs := by
  cases xs <;> cases mask <;> rfl

theorem boolScatterWith_getD (xs : List α) (mask : List Bool) (vals : List β)
    (upd : α → β → α) (h : mask.length = xs.length)
    (hv : cnt mask ≤ vals.length) (i : Nat) (hi : i < xs.length) (d : α)
    (dv : β) :
    (boolScatterWith xs mask vals upd).getD i d =
      if mask.getD i false then upd (xs.getD i d) (vals.getD (rk mask i) dv)
      else xs.getD i d := by
  induction xs generalizing mask vals i with
  | nil => simp at hi
  | cons x xs ih =>
    cases mask with
    | nil => simp at h
    | cons b m =>
      have h' : m.length = xs.length := by simpa using h
      cases b with
      | false =>
        rw [cnt_cons_false] at hv
        cases vals with
        | nil =>
          have hc0 : cnt m = 0 := by simpa using hv
          -- with no values left nothing is written anywhere
          rw [boolScatterWith_vals_nil]
          cases i with
          | zero => simp
          | succ i =>
            rw [rk_cons_succ_false]
            have hi' : i < m.length := by
              rw [h']
              simpa using hi
            have hm : m.getD i false = false := by
              by_contra hcon
              have hb : m.getD i false = true := by
                cases hmb : m.getD i false with
                | false => exact absurd hmb hcon
                | true => rfl
              have := rk_lt_cnt m i hi' hb
              omega
            simp only [List.getD_cons_succ]
            rw [hm]
            simp
        | cons v vs =>
          cases i with
          | zero => simp [boolScatterWith]
          | succ i =>
            simp only [boolScatterWith, List.getD_cons_succ]
            rw [rk_cons_succ_false]
            exact ih m (v :: vs) h' hv i (by simpa using hi)
      | true =>
        rw [cnt_cons_true] at hv
        cases vals with
        | nil => simp at hv
        | cons v vs =>
          have hv' : cnt m ≤ vs.length := by simpa using hv
          cases i with
          | zero => simp [boolScatterWith, rk_zero]
          | succ i =>
            simp only [boolScatterWith, if_pos rfl, List.getD_cons_succ]
            rw [rk_cons_succ_true]
            have := ih m vs h' hv' i (by simpa using hi)
            simpa using this

theorem setTrueAt_length (m : List Bool) (idxs : List Nat) :
    (setTrueAt m idxs).length = m.length := by
  induction idxs generalizing m with
  | nil => rfl
  | cons j idxs ih => simpa [setTrueAt] using ih (m.set j true)

theorem setTrueAt_getD (m : List Bool) (idxs : List Nat) (i : Nat)
    (hi : i < m.length) :
    (setTrueAt m idxs).getD i false = (m.getD i false || decide (i ∈ idxs)) := by
  induction idxs generalizing m with
  | nil => simp [setTrueAt]
  | cons j idxs ih =>
    show (setTrueAt (m.set j true) idxs).getD i false = _
    rw [ih (m.set j true) (by simpa using hi)]
    by_cases hij : i = j
    · subst hij
      rw [tk_getD_set_self m i true hi]
      simp
    · rw [tk_getD_set_ne m i j true hij]
      simp [hij]

theorem fancyNextScatter_length (xs : List HalfEdge) (ps : List (Nat × Nat)) :
    (fancyNextScatter xs ps).length = xs.length := by
  induction ps generalizing xs with
  | nil => rfl
  | cons p ps ih =>
    have hstep : fancyNextScatter xs (p :: ps)
        = fancyNextScatter (xs.set p.1 { heGet xs p.1 with next := p.2 }) ps := rfl
    rw [hstep, ih]
    simp

theorem fancyNextScatter_getD_notMem (xs : List HalfEdge)
    (ps : List (Nat × Nat)) (i : Nat) (h : ∀ p ∈ ps, p.1 ≠ i) :
    heGet (fancyNextScatter xs ps) i = heGet xs i := by
  induction ps generalizing xs with
  | nil => rfl
  | cons p ps ih =>
    show heGet (fancyNextScatter (xs.set p.1 _) ps) i = heGet xs i
    rw [ih _ (fun q hq => h q (List.mem_cons_of_mem p hq))]
    exact tk_getD_set_ne xs i p.1 _ (fun he => (h p (List.mem_cons_self p ps)) (he ▸ rfl)) zeroHE

theorem fancyNextScatter_getD_mem (xs : List HalfEdge) (ps : List (Nat × Nat))
    (i v : Nat) (hnd : (ps.map Prod.fst).Nodup) (hmem : (i, v) ∈ ps)
    (hi : i < xs.length) :
    heGet (fancyNextScatter xs ps) i = { heGet xs i with next := v } := by
  induction ps generalizing xs with
  | nil => simp at hmem
  | cons p ps ih =>
    rcases List.mem_cons.mp hmem with hp | hp
    · -- the head writes position i; no later pair touches i again
      have hpf : p.1 ∉ ps.map Prod.fst := (List.nodup_cons.mp hnd).1
      have hni : ∀ q ∈ ps, q.1 ≠ i := by
        intro q hq hqi
        apply hpf
        have hp1 : p.1 = i := by rw [← hp]
        rw [hp1, ← hqi]
        exact List.mem_map_of_mem Prod.fst hq
      show heGet (fancyNextScatter (xs.set p.1 _) ps) i = _
      rw [fancyNextScatter_getD_notMem _ ps i hni]
      have hp1 : p.1 = i := by rw [← hp]
      have hp2 : p.2 = v := by rw [← hp]
      subst hp1
      unfold heGet
      rw [tk_getD_set_self xs p.1 _ hi]
      rw [hp2]
    · have hnd' : (ps.map Prod.fst).Nodup := (List.nodup_cons.mp hnd).2
      show heGet (fancyNextScatter (xs.set p.1 _) ps) i = _
      by_cases hpi : p.1 = i
      · exfalso
        have := (List.nodup_cons.mp hnd).1
        exact this (hpi ▸ (List.mem_map_of_mem Prod.fst hp) : p.1 ∈ ps.map Prod.fst)
      · rw [ih _ hnd' hp (by simpa using hi)]
        unfold heGet
        rw [tk_getD_set_ne xs i p.1 _ (fun he => hpi he.symm) zeroHE]

theorem boolGather_cons_true (x : α) (xs : List α) (m : List Bool) :
    boolGather (x :: xs) (true :: m) = x :: boolGather xs m := rfl

theorem boolGather_cons_false (x : α) (xs : List α) (m : List Bool) :
    boolGather (x :: xs) (false :: m) = boolGather xs m := rfl

theorem mapNot_boolGather (A : List Bool) (B : List Bool) :
    (boolGather A B).map (fun b => !b) = boolGather (A.map (fun b => !b)) B := by
  induction A generalizing B with
  | nil => cases B <;> rfl
  | cons a A ih =>
    cases B with
    | nil => rfl
    | cons b B =>
      cases b with
      | false =>
        rw [boolGather_cons_false, List.map_cons, boolGather_cons_false]
        exact ih B
      | true =>
        rw [boolGather_cons_true, List.map_cons, List.map_cons,
          boolGather_cons_true, ih B]

theorem cnt_boolGather (A B : List Bool) (h : A.length = B.length) :
    cnt (boolGather A B) = cnt (List.zipWith (fun a b => a && b) A B) := by
  induction A generalizing B with
  | nil => cases B <;> rfl
  | cons a A ih =>
    cases B with
    | nil => simp at h
    | cons b B =>
      have h' : A.length = B.length := by simpa using h
      cases b with
      | false =>
        cases a with
        | false =>
          show cnt (boolGather A B) = cnt (false :: List.zipWith (fun a b => a && b) A B)
          rw [cnt_cons_false, ih B h']
        | true =>
          show cnt (boolGather A B) = cnt (false :: List.zipWith (fun a b => a && b) A B)
          rw [cnt_cons_false, ih B h']
      | true =>
        cases a with
        | false =>
          show cnt (boolGather A B) = cnt (false :: List.zipWith (fun a b => a && b) A B)
          rw [cnt_cons_false, ih B h']
        | true =>
          show cnt (true :: boolGather A B)
              = cnt (true :: List.zipWith (fun a b => a && b) A B)
          rw [cnt_cons_true, cnt_cons_true, ih B h']

theorem sel_boolGather (A B : List Bool) (h : A.length = B.length) (j : Nat) :
    sel B (sel (boolGather A B) j) = sel (List.zipWith (fun a b => a && b) A B) j := by
  induction A generalizing B j with
  | nil =>
    cases B with
    | nil => rfl
    | cons b B => simp at h
  | cons a A ih =>
    cases B with
    | nil => simp at h
    | cons b B =>
      have h' : A.length = B.length := by simpa using h
      cases b with
      | false =>
        cases a with
        | false =>
          show sel (false :: B) (sel (boolGather A B) j)
              = sel (false :: List.zipWith (fun a b => a && b) A B) j
          simp only [sel]
          rw [ih B h' j]
        | true =>
          show sel (false :: B) (sel (boolGather A B) j)
              = sel (false :: List.zipWith (fun a b => a && b) A B) j
          simp only [sel]
          rw [ih B h' j]
      | true =>
        cases a with
        | false =>
          show sel (true :: B) (sel (false :: boolGather A B) j)
              = sel (false :: List.zipWith (fun a b => a && b) A B) j
          simp only [sel]
          rw [ih B h' j]
        | true =>
          cases j with
          | zero => rfl
          | succ j =>
            show sel (true :: B) (sel (true :: boolGather A B) (j + 1))
                = sel (true :: List.zipWith (fun a b => a && b) A B) (j + 1)
            simp only [sel]
            rw [ih B h' j]

theorem rk_boolGather (A B : List Bool) (h : A.length = B.length) (k : Nat) :
    rk (boolGather A B) k = rk (List.zipWith (fun a b => a && b) A B) (sel B k) := by
  induction A generalizing B k with
  | nil =>
    cases B with
    | nil =>
      show rk ([] : List Bool) k = rk ([] : List Bool) (sel [] k)
      simp [rk, List.take_nil]
    | cons b B => simp at h
  | cons a A ih =>
    cases B with
    | nil => simp at h
    | cons b B =>
      have h' : A.length = B.length := by simpa using h
      cases b with
      | false =>
        cases a with
        | false =>
          show rk (boolGather A B) k
              = rk (false :: List.zipWith (fun a b => a && b) A B) (sel B k + 1)
          rw [rk_cons_succ_false]
          exact ih B h' k
        | true =>
          show rk (boolGather A B) k
              = rk (false :: List.zipWith (fun a b => a && b) A B) (sel B k + 1)
          rw [rk_cons_succ_false]
          exact ih B h' k
      | true =>
        cases k with
        | zero =>
          cases a with
          | false =>
            show rk (false :: boolGather A B) 0
                = rk (false :: List.zipWith (fun a b => a && b) A B) 0
            rw [rk_zero, rk_zero]
          | true =>
            show rk (true :: boolGather A B) 0
                = rk (true :: List.zipWith (fun a b => a && b) A B) 0
            rw [rk_zero, rk_zero]
        | succ k =>
          cases a with
          | false =>
            show rk (false :: boolGather A B) (k + 1)
                = rk (false :: List.zipWith (fun a b => a && b) A B) (sel B k + 1)
            rw [rk_cons_succ_false, rk_cons_succ_false]
            exact ih B h' k
          | true =>
            show rk (true :: boolGather A B) (k + 1)
                = rk (true :: List.zipWith (fun a b => a && b) A B) (sel B k + 1)
            rw [rk_cons_succ_true, rk_cons_succ_true]
            rw [ih B h' k]

/-! ## Toolkit: argsort -/

theorem map_getD_range (l : List Nat) :
    (List.range l.length).map (fun a => l.getD a 0) = l := by
  apply List.ext_getElem
  · simp
  · intro i hi hi2
    have hlen : i < l.length := by simpa using hi2
    rw [List.getElem_map, List.getElem_range,
      List.getD_eq_getElem l 0 hlen]

theorem argsort_perm (key : List Nat) :
    List.Perm (argsort key) (List.range key.length) :=
  List.perm_insertionSort _ _

theorem argsort_length (key : List Nat) :
    (argsort key).length = key.length := by
  rw [(argsort_perm key).length_eq, List.length_range]

theorem argsort_mem_lt (key : List Nat) (a : Nat) (ha : a ∈ argsort key) :
    a < key.length := by
  have := (argsort_perm key).mem_iff.mp ha
  simpa using this

theorem argsort_nodup (key : List Nat) : (argsort key).Nodup :=
  (argsort_perm key).nodup_iff.mpr (List.nodup_range _)

theorem argsort_sorted_key (key : List Nat) :
    List.Sorted (fun a b => key.getD a 0 ≤ key.getD b 0) (argsort key) := by
  haveI : IsTotal Nat (fun a b => key.getD a 0 ≤ key.getD b 0) :=
    ⟨fun a b => Nat.le_total _ _⟩
  haveI : IsTrans Nat (fun a b => key.getD a 0 ≤ key.getD b 0) :=
    ⟨fun a b c hab hbc => le_trans hab hbc⟩
  exact List.sorted_insertionSort _ _

theorem argsort_map_perm (key : List Nat) :
    List.Perm ((argsort key).map (fun a => key.getD a 0)) key := by
  have h1 : List.Perm ((argsort key).map (fun a => key.getD a 0))
      ((List.range key.length).map (fun a => key.getD a 0)) :=
    (argsort_perm key).map _
  rw [map_getD_range key] at h1
  exact h1

theorem argsort_map_sorted (key : List Nat) :
    List.Sorted (· ≤ ·) ((argsort key).map (fun a => key.getD a 0)) := by
  exact List.Pairwise.map _ (fun a b hab => hab) (argsort_sorted_key key)

/-! ## Toolkit: sorted nodup lists -/

theorem sorted_le_nodup_lt (l : List Nat) (s : List.Sorted (· ≤ ·) l)
    (nd : l.Nodup) : List.Sorted (· < ·) l := by
  have := List.Pairwise.and s nd
  exact this.imp (fun hab => lt_of_le_of_ne hab.1 hab.2)

theorem sorted_lt_eq_of_perm (l1 l2 : List Nat) (h : List.Perm l1 l2)
    (s1 : List.Sorted (· < ·) l1) (s2 : List.Sorted (· < ·) l2) : l1 = l2 :=
  List.eq_of_perm_of_sorted h s1 s2

/-! ## Toolkit: selList -/

theorem selList_length (m : List Bool) : (selList m).length = cnt m := by
  simp [selList]

theorem selList_getD (m : List Bool) (k : Nat) (hk : k < cnt m) :
    (selList m).getD k 0 = sel m k := by
  rw [selList, tk_getD_map _ _ k (by simpa using hk) 0 0,
    tk_getD_range _ _ hk]

theorem selList_sorted (m : List Bool) : List.Sorted (· < ·) (selList m) := by
  show List.Pairwise (· < ·) (selList m)
  rw [List.pairwise_iff_getElem]
  intro i j hi hj hij
  have hi' : i < cnt m := by simpa [selList] using hi
  have hj' : j < cnt m := by simpa [selList] using hj
  have h1 : (selList m)[i] = sel m i := by
    have := selList_getD m i hi'
    rwa [List.getD_eq_getElem _ 0 hi] at this
  have h2 : (selList m)[j] = sel m j := by
    have := selList_getD m j hj'
    rwa [List.getD_eq_getElem _ 0 hj] at this
  rw [h1, h2]
  exact sel_strictMono m i j hij hj'

theorem selList_nodup (m : List Bool) : (selList m).Nodup :=
  (selList_sorted m).nodup

theorem mem_selList (m : List Bool) (a : Nat) :
    a ∈ selList m ↔ (a < m.length ∧ m.getD a false = true) := by
  constructor
  · intro ha
    rcases List.mem_map.mp ha with ⟨k, hk, hka⟩
    have hk' : k < cnt m := by simpa using hk
    subst hka
    exact ⟨sel_lt_length m k hk', getD_sel m k hk'⟩
  · rintro ⟨ha1, ha2⟩
    apply List.mem_map.mpr
    refine ⟨rk m a, ?_, sel_rk m a ha1 ha2⟩
    simpa using rk_lt_cnt m a ha1 ha2

/-! ## Membership in gathers, mask counting -/

theorem mem_boolGather_iff (xs : List α) (mask : List Bool) (d : α)
    (h : xs.length = mask.length) (a : α) :
    a ∈ boolGather xs mask ↔
      ∃ i, i < xs.length ∧ mask.getD i false = true ∧ xs.getD i d = a := by
  constructor
  · intro ha
    rcases List.mem_iff_getElem.mp ha with ⟨k, hk, hka⟩
    have hk' : k < cnt mask := by
      rw [boolGather_length xs mask h] at hk
      exact hk
    refine ⟨sel mask k, ?_, getD_sel mask k hk', ?_⟩
    · rw [h]
      exact sel_lt_length mask k hk'
    · rw [← boolGather_getD xs mask h k hk' d, List.getD_eq_getElem _ d hk]
      exact hka
  · rintro ⟨i, hi, hmi, hxi⟩
    have hicnt : rk mask i < cnt mask := rk_lt_cnt mask i (h ▸ hi) hmi
    apply List.mem_iff_getElem.mpr
    refine ⟨rk mask i, ?_, ?_⟩
    · rw [boolGather_length xs mask h]
      exact hicnt
    · have := boolGather_getD xs mask h (rk mask i) hicnt d
      rw [sel_rk mask i (h ▸ hi) hmi] at this
      rw [← List.getD_eq_getElem _ d]
      rw [this, hxi]

theorem cnt_and_split (A B : List Bool) (h : A.length = B.length) :
    cnt (List.zipWith (fun a b => a && b) A B) +
      cnt (List.zipWith (fun a b => a && b) (A.map (fun b => !b)) B) = cnt B := by
  induction A generalizing B with
  | nil =>
    cases B with
    | nil => rfl
    | cons b B => simp at h
  | cons a A ih =>
    cases B with
    | nil => simp at h
    | cons b B =>
      have h' : A.length = B.length := by simpa using h
      have hih := ih B h'
      cases a with
      | false =>
        cases b with
        | false =>
          show cnt (false :: List.zipWith (fun a b => a && b) A B) +
              cnt (false :: List.zipWith (fun a b => a && b) (A.map (fun b => !b)) B)
              = cnt (false :: B)
          rw [cnt_cons_false, cnt_cons_false, cnt_cons_false]
          exact hih
        | true =>
          show cnt (false :: List.zipWith (fun a b => a && b) A B) +
              cnt (true :: List.zipWith (fun a b => a && b) (A.map (fun b => !b)) B)
              = cnt (true :: B)
          rw [cnt_cons_false, cnt_cons_true, cnt_cons_true]
          omega
      | true =>
        cases b with
        | false =>
          show cnt (false :: List.zipWith (fun a b => a && b) A B) +
              cnt (false :: List.zipWith (fun a b => a && b) (A.map (fun b => !b)) B)
              = cnt (false :: B)
          rw [cnt_cons_false, cnt_cons_false, cnt_cons_false]
          exact hih
        | true =>
          show cnt (true :: List.zipWith (fun a b => a && b) A B) +
              cnt (false :: List.zipWith (fun a b => a && b) (A.map (fun b => !b)) B)
              = cnt (true :: B)
          rw [cnt_cons_true, cnt_cons_false, cnt_cons_true]
          omega

/-! ## Facts about mainMask, the symmetrised marking and flag0 -/

theorem mainMask_length (H : List HalfEdge) : (mainMask H).length = H.length := by
  simp [mainMask]

theorem mainMask_getD (H : List HalfEdge) (i : Nat) (hi : i < H.length) :
    (mainMask H).getD i false = decide ((heGet H i).primary = 1) :=
  tk_getD_map _ H i hi false zeroHE

theorem validTopo_iff (H : List HalfEdge) :
    validTopo H = true ↔ (twinOK H ∧ prevOK H) := by
  constructor
  · intro hv
    have hall := List.all_eq_true.mp hv
    constructor
    · intro i hi
      have := hall i (List.mem_range.mpr hi)
      simp only [Bool.and_eq_true, decide_eq_true_eq] at this
      exact ⟨this.1.1.1.1.1.1, this.1.1.1.2, this.2⟩
    · intro i hi
      have := hall i (List.mem_range.mpr hi)
      simp only [Bool.and_eq_true, decide_eq_true_eq] at this
      exact ⟨this.1.1.1.1.1.2, this.1.1.1.1.2, this.1.1.2, this.1.2⟩
  · rintro ⟨ht, hp⟩
    apply List.all_eq_true.mpr
    intro i hmem
    have hi := List.mem_range.mp hmem
    have h1 := ht i hi
    have h2 := hp i hi
    simp only [Bool.and_eq_true, decide_eq_true_eq]
    exact ⟨⟨⟨⟨⟨⟨h1.1, h2.1⟩, h2.2.1⟩, h1.2.1⟩, h2.2.2.1⟩, h2.2.2.2⟩, h1.2.2⟩

theorem aM1_length (H : List HalfEdge) (M : List Bool) :
    (aM1 H M).length = M.length :=
  setTrueAt_length _ _

theorem aM1_getD (H : List HalfEdge) (M : List Bool) (ht : twinOK H)
    (hM : M.length = H.length) (i : Nat) (hi : i < H.length) :
    (aM1 H M).getD i false
      = (M.getD i false || M.getD ((heGet H i).twin) false) := by
  rw [aM1, setTrueAt_getD M _ i (hM ▸ hi)]
  congr 1
  -- membership in the twin indices of the marked rows is marking of the twin
  by_cases hmem : i ∈ (boolGather H M).map (fun h => h.twin)
  · rcases List.mem_map.mp hmem with ⟨h', hh', hh'i⟩
    rcases (mem_boolGather_iff H M zeroHE hM.symm h').mp hh' with ⟨j, hj, hMj, hHj⟩
    have hji : (heGet H j).twin = i := by
      rw [heGet, hHj, hh'i]
    have htwin : M.getD ((heGet H i).twin) false = true := by
      have hjj := (ht j hj).2.1
      rw [hji] at hjj
      rw [hjj]
      exact hMj
    rw [htwin]
    exact decide_eq_true hmem
  · have htwin : M.getD ((heGet H i).twin) false = false := by
      by_contra hcon
      have htw : M.getD ((heGet H i).twin) false = true := by
        cases hmb : M.getD ((heGet H i).twin) false with
        | false => exact absurd hmb hcon
        | true => rfl
      apply hmem
      apply List.mem_map.mpr
      refine ⟨heGet H ((heGet H i).twin), ?_, (ht i hi).2.1⟩
      apply (mem_boolGather_iff H M zeroHE hM.symm _).mpr
      exact ⟨(heGet H i).twin, (ht i hi).1, htw, rfl⟩
    rw [htwin]
    exact decide_eq_false hmem

theorem aM1_markOK (H : List HalfEdge) (M : List Bool) (ht : twinOK H)
    (hM : M.length = H.length) : markOK H (aM1 H M) := by
  constructor
  · rw [aM1_length, hM]
  · intro i hi
    have h1 := aM1_getD H M ht hM i hi
    have h2 := aM1_getD H M ht hM ((heGet H i).twin) (ht i hi).1
    rw [h1, h2, (ht i hi).2.1, Bool.or_comm]

theorem aFlag0_length (H : List HalfEdge) (M : List Bool)
    (hM : M.length = H.length) : (aFlag0 H M).length = H.length := by
  simp [aFlag0, mainMask_length, aM1_length, hM]

theorem aFlag0_getD (H : List HalfEdge) (M : List Bool)
    (hM : M.length = H.length) (i : Nat) (hi : i < H.length) :
    (aFlag0 H M).getD i false
      = (decide ((heGet H i).primary = 1) && (aM1 H M).getD i false) := by
  rw [aFlag0, tk_getD_zipWith _ _ _ i (by rw [mainMask_length]; exact hi)
    (by rw [aM1_length, hM]; exact hi) false false false,
    mainMask_getD H i hi]

/-! ## The twin-index list `idx` and its argsort -/

theorem aNMask_length (H : List HalfEdge) (M : List Bool)
    (hM : M.length = H.length) : (aNMask H M).length = H.length := by
  simp [aNMask, mainMask_length, aM1_length, hM]

theorem aNMask_getD (H : List HalfEdge) (M : List Bool)
    (hM : M.length = H.length) (i : Nat) (hi : i < H.length) :
    (aNMask H M).getD i false
      = (!decide ((heGet H i).primary = 1) && (aM1 H M).getD i false) := by
  rw [aNMask, tk_getD_zipWith _ _ _ i
    (by rw [List.length_map, mainMask_length]; exact hi)
    (by rw [aM1_length, hM]; exact hi) false false false,
    tk_getD_map _ _ i (by rw [mainMask_length]; exact hi) false false,
    mainMask_getD H i hi]

theorem cnt_aFlag0_add_aNMask (H : List HalfEdge) (M : List Bool)
    (hM : M.length = H.length) :
    cnt (aFlag0 H M) + cnt (aNMask H M) = cnt (aM1 H M) := by
  apply cnt_and_split
  rw [mainMask_length, aM1_length, hM]

theorem aIdxL_length (H : List HalfEdge) (M : List Bool)
    (hM : M.length = H.length) :
    (aIdxL H M).length = cnt (aFlag0 H M) := by
  rw [aIdxL, List.length_map, boolGather_length _ _ (aFlag0_length H M hM).symm]

theorem aIdxL_getD (H : List HalfEdge) (M : List Bool)
    (hM : M.length = H.length) (p : Nat) (hp : p < cnt (aFlag0 H M)) :
    (aIdxL H M).getD p 0 = (heGet H (sel (aFlag0 H M) p)).twin := by
  rw [aIdxL, tk_getD_map _ _ p
    (by rw [boolGather_length _ _ (aFlag0_length H M hM).symm]; exact hp) 0 zeroHE,
    show (boolGather H (aFlag0 H M)).getD p zeroHE
        = H.getD (sel (aFlag0 H M) p) zeroHE from
      boolGather_getD H (aFlag0 H M) (aFlag0_length H M hM).symm p hp zeroHE]
  rfl

theorem sel_aFlag0_spec (H : List HalfEdge) (M : List Bool)
    (hM : M.length = H.length) (p : Nat) (hp : p < cnt (aFlag0 H M)) :
    sel (aFlag0 H M) p < H.length ∧
    (heGet H (sel (aFlag0 H M) p)).primary = 1 ∧
    (aM1 H M).getD (sel (aFlag0 H M) p) false = true := by
  have h1 : sel (aFlag0 H M) p < H.length := by
    have := sel_lt_length (aFlag0 H M) p hp
    rwa [aFlag0_length H M hM] at this
  have h2 := getD_sel (aFlag0 H M) p hp
  rw [aFlag0_getD H M hM _ h1] at h2
  rw [Bool.and_eq_true] at h2
  exact ⟨h1, decide_eq_true_eq.mp h2.1, h2.2⟩

theorem sel_aNMask_spec (H : List HalfEdge) (M : List Bool)
    (hM : M.length = H.length) (j : Nat) (hj : j < cnt (aNMask H M)) :
    sel (aNMask H M) j < H.length ∧
    ¬(heGet H (sel (aNMask H M) j)).primary = 1 ∧
    (aM1 H M).getD (sel (aNMask H M) j) false = true := by
  have h1 : sel (aNMask H M) j < H.length := by
    have := sel_lt_length (aNMask H M) j hj
    rwa [aNMask_length H M hM] at this
  have h2 := getD_sel (aNMask H M) j hj
  rw [aNMask_getD H M hM _ h1] at h2
  rw [Bool.and_eq_true] at h2
  refine ⟨h1, ?_, h2.2⟩
  intro hcon
  have h2a := h2.1
  rw [hcon] at h2a
  simp at h2a

theorem aIdxL_nodup (H : List HalfEdge) (M : List Bool) (ht : twinOK H)
    (hM : M.length = H.length) : (aIdxL H M).Nodup := by
  show List.Pairwise (· ≠ ·) (aIdxL H M)
  rw [List.pairwise_iff_getElem]
  intro p q hp0 hq0 hpq
  have hp : p < cnt (aFlag0 H M) := lt_of_lt_of_eq hp0 (aIdxL_length H M hM)
  have hq : q < cnt (aFlag0 H M) := lt_of_lt_of_eq hq0 (aIdxL_length H M hM)
  have hgp : (aIdxL H M)[p] = (heGet H (sel (aFlag0 H M) p)).twin := by
    rw [← List.getD_eq_getElem _ 0 hp0, aIdxL_getD H M hM p hp]
  have hgq : (aIdxL H M)[q] = (heGet H (sel (aFlag0 H M) q)).twin := by
    rw [← List.getD_eq_getElem _ 0 hq0, aIdxL_getD H M hM q hq]
  rw [hgp, hgq]
  intro heq
  have hselp := (sel_aFlag0_spec H M hM p hp).1
  have hselq := (sel_aFlag0_spec H M hM q hq).1
  have hsel : sel (aFlag0 H M) p = sel (aFlag0 H M) q := by
    have e1 := (ht _ hselp).2.1
    have e2 := (ht _ hselq).2.1
    rw [← e1, ← e2, heq]
  have := sel_strictMono (aFlag0 H M) p q hpq hq
  omega

theorem mem_aIdxL_iff (H : List HalfEdge) (M : List Bool) (ht : twinOK H)
    (hM : M.length = H.length) (a : Nat) :
    a ∈ aIdxL H M ↔ (a < H.length ∧ (aNMask H M).getD a false = true) := by
  have hmk := aM1_markOK H M ht hM
  constructor
  · intro ha
    rcases List.mem_map.mp ha with ⟨h', hh', hh'a⟩
    rcases (mem_boolGather_iff H (aFlag0 H M) zeroHE
      (aFlag0_length H M hM).symm h').mp hh' with ⟨i, hi, hF0, hHi⟩
    rw [aFlag0_getD H M hM i hi] at hF0
    rw [Bool.and_eq_true] at hF0
    rcases hF0 with ⟨hFa, hFb⟩
    have hmain : (heGet H i).primary = 1 := decide_eq_true_eq.mp hFa
    have hia : (heGet H i).twin = a := by
      rw [heGet, hHi, hh'a]
    constructor
    · rw [← hia]; exact (ht i hi).1
    · rw [aNMask_getD H M hM a (by rw [← hia]; exact (ht i hi).1)]
      rw [Bool.and_eq_true]
      constructor
      · have hxor := (ht i hi).2.2
        rw [hia] at hxor
        have : ¬(heGet H a).primary = 1 := hxor.mp hmain
        simpa using this
      · have := hmk.2 i hi
        rw [hia] at this
        rw [this]
        exact hFb
  · rintro ⟨ha, hN⟩
    rw [aNMask_getD H M hM a ha] at hN
    rw [Bool.and_eq_true] at hN
    rcases hN with ⟨hNa, hNb⟩
    have hnm : ¬(heGet H a).primary = 1 := by
      intro hcon
      rw [hcon] at hNa
      simp at hNa
    apply List.mem_map.mpr
    refine ⟨heGet H ((heGet H a).twin), ?_, (ht a ha).2.1⟩
    apply (mem_boolGather_iff H (aFlag0 H M) zeroHE
      (aFlag0_length H M hM).symm _).mpr
    refine ⟨(heGet H a).twin, (ht a ha).1, ?_, rfl⟩
    rw [aFlag0_getD H M hM _ (ht a ha).1]
    rw [Bool.and_eq_true]
    constructor
    · have hxor := (ht a ha).2.2
      have : (heGet H ((heGet H a).twin)).primary = 1 := by
        by_contra hcon
        exact hnm (hxor.mpr hcon)
      simpa using this
    · have := hmk.2 a ha
      rw [this]
      exact hNb

theorem aIdxL_perm (H : List HalfEdge) (M : List Bool) (ht : twinOK H)
    (hM : M.length = H.length) :
    List.Perm (aIdxL H M) (selList (aNMask H M)) := by
  apply (List.perm_ext_iff_of_nodup (aIdxL_nodup H M ht hM)
    (selList_nodup _)).mpr
  intro a
  rw [mem_aIdxL_iff H M ht hM a, mem_selList]
  rw [aNMask_length H M hM]

theorem cnt_aFlag0_eq_aNMask (H : List HalfEdge) (M : List Bool)
    (ht : twinOK H) (hM : M.length = H.length) :
    cnt (aFlag0 H M) = cnt (aNMask H M) := by
  have := (aIdxL_perm H M ht hM).length_eq
  rwa [aIdxL_length H M hM, selList_length] at this

theorem argsort_aIdxL_spec (H : List HalfEdge) (M : List Bool) (ht : twinOK H)
    (hM : M.length = H.length) (j : Nat) (hj : j < cnt (aNMask H M)) :
    (argsort (aIdxL H M)).getD j 0 < cnt (aFlag0 H M) ∧
    sel (aFlag0 H M) ((argsort (aIdxL H M)).getD j 0)
      = (heGet H (sel (aNMask H M) j)).twin ∧
    (argsort (aIdxL H M)).getD j 0
      = rk (aFlag0 H M) ((heGet H (sel (aNMask H M) j)).twin) := by
  have hperm : List.Perm ((argsort (aIdxL H M)).map (fun a => (aIdxL H M).getD a 0))
      (selList (aNMask H M)) :=
    (argsort_map_perm (aIdxL H M)).trans (aIdxL_perm H M ht hM)
  have hnd : ((argsort (aIdxL H M)).map (fun a => (aIdxL H M).getD a 0)).Nodup :=
    hperm.nodup_iff.mpr (selList_nodup _)
  have heq : (argsort (aIdxL H M)).map (fun a => (aIdxL H M).getD a 0)
      = selList (aNMask H M) :=
    sorted_lt_eq_of_perm _ _ hperm
      (sorted_le_nodup_lt _ (argsort_map_sorted (aIdxL H M)) hnd)
      (selList_sorted _)
  have hjlen : j < (argsort (aIdxL H M)).length := by
    rw [argsort_length, aIdxL_length H M hM,
      cnt_aFlag0_eq_aNMask H M ht hM]
    exact hj
  have hp0 : (argsort (aIdxL H M)).getD j 0 ∈ argsort (aIdxL H M) := by
    rw [List.getD_eq_getElem _ 0 hjlen]
    exact List.getElem_mem _
  have hp : (argsort (aIdxL H M)).getD j 0 < cnt (aFlag0 H M) := by
    have := argsort_mem_lt _ _ hp0
    rwa [aIdxL_length H M hM] at this
  have hkeyval : (aIdxL H M).getD ((argsort (aIdxL H M)).getD j 0) 0
      = sel (aNMask H M) j := by
    have h1 : ((argsort (aIdxL H M)).map (fun a => (aIdxL H M).getD a 0)).getD j 0
        = (aIdxL H M).getD ((argsort (aIdxL H M)).getD j 0) 0 :=
      tk_getD_map _ _ j hjlen 0 0
    rw [heq, selList_getD _ j hj] at h1
    exact h1.symm
  rw [aIdxL_getD H M hM _ hp] at hkeyval
  have hself := (sel_aFlag0_spec H M hM _ hp).1
  have hinv := (ht _ hself).2.1
  have h2 : sel (aFlag0 H M) ((argsort (aIdxL H M)).getD j 0)
      = (heGet H (sel (aNMask H M) j)).twin := by
    rw [← hkeyval, hinv]
  refine ⟨hp, h2, ?_⟩
  rw [← h2, rk_sel _ _ hp]

/-! ## Lengths and gathered masks used by halfedge1 -/

theorem aEc_none_length (H : List HalfEdge) (M : List Bool) (V : List Vec2)
    (hM : M.length = H.length) :
    (aEc M V H none).length = cnt (aFlag0 H M) := by
  rw [aEc, List.length_zipWith, List.length_map, List.length_map,
    boolGather_length _ _ (aFlag0_length H M hM).symm,
    aIdxL_length H M hM, Nat.min_self]

theorem cnt_aM1_double (H : List HalfEdge) (M : List Bool) (ht : twinOK H)
    (hM : M.length = H.length) :
    cnt (aM1 H M) = 2 * cnt (aFlag0 H M) := by
  have h1 := cnt_aFlag0_add_aNMask H M hM
  have h2 := cnt_aFlag0_eq_aNMask H M ht hM
  omega

theorem aFlag1_length (H : List HalfEdge) (M : List Bool)
    (hM : M.length = H.length) : (aFlag1 H M).length = cnt (aM1 H M) := by
  rw [aFlag1, boolGather_length _ _ (by rw [mainMask_length, aM1_length, hM])]

theorem aFlag1_getD (H : List HalfEdge) (M : List Bool)
    (hM : M.length = H.length) (k : Nat) (hk : k < cnt (aM1 H M)) :
    (aFlag1 H M).getD k false
      = decide ((heGet H (sel (aM1 H M) k)).primary = 1) := by
  have hsel : sel (aM1 H M) k < H.length := by
    have := sel_lt_length (aM1 H M) k hk
    rwa [aM1_length, hM] at this
  rw [aFlag1, boolGather_getD _ _ (by rw [mainMask_length, aM1_length, hM]) k hk false,
    mainMask_getD H _ hsel]

theorem cnt_aFlag1 (H : List HalfEdge) (M : List Bool)
    (hM : M.length = H.length) : cnt (aFlag1 H M) = cnt (aFlag0 H M) := by
  rw [aFlag1, cnt_boolGather _ _ (by rw [mainMask_length, aM1_length, hM])]
  rfl

theorem rk_aFlag1 (H : List HalfEdge) (M : List Bool)
    (hM : M.length = H.length) (k : Nat) :
    rk (aFlag1 H M) k = rk (aFlag0 H M) (sel (aM1 H M) k) := by
  rw [aFlag1, rk_boolGather _ _ (by rw [mainMask_length, aM1_length, hM]) k]
  rfl

theorem mapNot_aFlag1 (H : List HalfEdge) (M : List Bool) :
    (aFlag1 H M).map (fun b => !b)
      = boolGather ((mainMask H).map (fun b => !b)) (aM1 H M) := by
  rw [aFlag1, mapNot_boolGather]

theorem cnt_mapNot_aFlag1 (H : List HalfEdge) (M : List Bool)
    (hM : M.length = H.length) :
    cnt ((aFlag1 H M).map (fun b => !b)) = cnt (aNMask H M) := by
  rw [mapNot_aFlag1, cnt_boolGather _ _
    (by rw [List.length_map, mainMask_length, aM1_length, hM])]
  rfl

theorem rk_mapNot_aFlag1 (H : List HalfEdge) (M : List Bool)
    (hM : M.length = H.length) (k : Nat) :
    rk ((aFlag1 H M).map (fun b => !b)) k
      = rk (aNMask H M) (sel (aM1 H M) k) := by
  rw [mapNot_aFlag1, rk_boolGather _ _
    (by rw [List.length_map, mainMask_length, aM1_length, hM]) k]
  rfl

theorem sel_mapNot_aFlag1 (H : List HalfEdge) (M : List Bool)
    (hM : M.length = H.length) (j : Nat) :
    sel (aM1 H M) (sel ((aFlag1 H M).map (fun b => !b)) j)
      = sel (aNMask H M) j := by
  rw [mapNot_aFlag1, sel_boolGather _ _
    (by rw [List.length_map, mainMask_length, aM1_length, hM]) j]
  rfl

/-! ## Row-level characterisation of the new half-edge table `halfedge1` -/

theorem aH1a_length (M : List Bool) (V : List Vec2) (H : List HalfEdge)
    (e : Option (List Vec2)) :
    (aH1a M V H e).length = 2 * (aEc M V H e).length := by
  simp [aH1a]

theorem aH1b_length (NV : Nat) (M : List Bool) (V : List Vec2)
    (H : List HalfEdge) (e : Option (List Vec2)) :
    (aH1b NV M V H e).length = 2 * (aEc M V H e).length := by
  rw [aH1b, boolScatterWith_length, aH1a_length]

theorem aH1c_length (NV : Nat) (M : List Bool) (V : List Vec2)
    (H : List HalfEdge) (e : Option (List Vec2)) :
    (aH1c NV M V H e).length = 2 * (aEc M V H e).length := by
  rw [aH1c, boolScatterWith_length, aH1b_length]

theorem aNE1_eq (H : List HalfEdge) (M : List Bool) (V : List Vec2)
    (ht : twinOK H) (hM : M.length = H.length) :
    2 * (aEc M V H none).length = cnt (aM1 H M) := by
  rw [aEc_none_length H M V hM]
  exact (cnt_aM1_double H M ht hM).symm

theorem aH1b_getD (NV : Nat) (H : List HalfEdge) (M : List Bool) (V : List Vec2)
    (ht : twinOK H) (hM : M.length = H.length) (k : Nat)
    (hk : k < cnt (aM1 H M)) :
    heGet (aH1b NV M V H none) k =
      if (heGet H (sel (aM1 H M) k)).primary = 1 then
        { zeroHE with target := NV + rk (aFlag0 H M) (sel (aM1 H M) k) }
      else zeroHE := by
  have hNE1 := aNE1_eq H M V ht hM
  have hsellt : sel (aM1 H M) k < H.length := by
    have := sel_lt_length (aM1 H M) k hk
    rwa [aM1_length, hM] at this
  have hmask : (aFlag1 H M).length = (aH1a M V H none).length := by
    rw [aFlag1_length H M hM, aH1a_length, hNE1]
  have hvals : cnt (aFlag1 H M)
      ≤ (List.range' NV (2 * (aEc M V H none).length / 2)).length := by
    rw [List.length_range', cnt_aFlag1 H M hM, aEc_none_length H M V hM]
    omega
  have hklen : k < (aH1a M V H none).length := by
    rw [aH1a_length, hNE1]
    exact hk
  show (boolScatterWith (aH1a M V H none) (aFlag1 H M) _ _).getD k zeroHE = _
  rw [boolScatterWith_getD _ _ _ _ hmask hvals k hklen zeroHE 0,
    aFlag1_getD H M hM k hk]
  have hxs : (aH1a M V H none).getD k zeroHE = zeroHE :=
    tk_getD_replicate zeroHE _ k (by rw [← aH1a_length M V H none]; exact hklen) zeroHE
  by_cases hmain : (heGet H (sel (aM1 H M) k)).primary = 1
  · rw [if_pos (by simp [hmain]), if_pos hmain, hxs]
    have hF0 : (aFlag0 H M).getD (sel (aM1 H M) k) false = true := by
      rw [aFlag0_getD H M hM _ hsellt, Bool.and_eq_true]
      exact ⟨decide_eq_true hmain, getD_sel (aM1 H M) k hk⟩
    have hrk : rk (aFlag0 H M) (sel (aM1 H M) k) < cnt (aFlag0 H M) :=
      rk_lt_cnt _ _ (by rw [aFlag0_length H M hM]; exact hsellt) hF0
    rw [rk_aFlag1 H M hM k,
      tk_getD_range' NV _ _ (by rw [aEc_none_length H M V hM]; omega) 0]
  · rw [if_neg (by simp [hmain]), if_neg hmain, hxs]

theorem aH1c_getD (NV : Nat) (H : List HalfEdge) (M : List Bool) (V : List Vec2)
    (ht : twinOK H) (hM : M.length = H.length) (k : Nat)
    (hk : k < cnt (aM1 H M)) :
    heGet (aH1c NV M V H none) k =
      { zeroHE with
        target := NV + rk (aFlag0 H M) (mainOf H (sel (aM1 H M) k)) } := by
  have hNE1 := aNE1_eq H M V ht hM
  have hsellt : sel (aM1 H M) k < H.length := by
    have := sel_lt_length (aM1 H M) k hk
    rwa [aM1_length, hM] at this
  have hmask : ((aFlag1 H M).map (fun b => !b)).length
      = (aH1b NV M V H none).length := by
    rw [List.length_map, aFlag1_length H M hM, aH1b_length, hNE1]
  have hvals : cnt ((aFlag1 H M).map (fun b => !b))
      ≤ (idxGather ((boolGather (aH1b NV M V H none) (aFlag1 H M)).map
          (fun h => h.target)) (argsort (aIdxL H M)) 0).length := by
    rw [cnt_mapNot_aFlag1 H M hM, idxGather, List.length_map, argsort_length,
      aIdxL_length H M hM, cnt_aFlag0_eq_aNMask H M ht hM]
  have hklen : k < (aH1b NV M V H none).length := by
    rw [aH1b_length, hNE1]
    exact hk
  have hmaskk : ((aFlag1 H M).map (fun b => !b)).getD k false
      = !decide ((heGet H (sel (aM1 H M) k)).primary = 1) := by
    rw [tk_getD_map _ _ k (by rw [aFlag1_length H M hM]; exact hk) false false,
      aFlag1_getD H M hM k hk]
  have hglen : (aH1b NV M V H none).length = (aFlag1 H M).length := by
    rw [aH1b_length, hNE1, aFlag1_length H M hM]
  show (boolScatterWith (aH1b NV M V H none) _ _ _).getD k zeroHE = _
  rw [boolScatterWith_getD _ _ _ _ hmask hvals k hklen zeroHE 0, hmaskk]
  by_cases hmain : (heGet H (sel (aM1 H M) k)).primary = 1
  · rw [if_neg (by simp [hmain])]
    have hb := aH1b_getD NV H M V ht hM k hk
    rw [if_pos hmain] at hb
    have hmo : mainOf H (sel (aM1 H M) k) = sel (aM1 H M) k := by
      unfold mainOf
      rw [if_pos hmain]
    show heGet (aH1b NV M V H none) k = _
    rw [hb, hmo]
  · rw [if_pos (by simp [hmain])]
    have hb := aH1b_getD NV H M V ht hM k hk
    rw [if_neg hmain] at hb
    have hj' := rk_mapNot_aFlag1 H M hM k
    have haN : (aNMask H M).getD (sel (aM1 H M) k) false = true := by
      rw [aNMask_getD H M hM _ hsellt, Bool.and_eq_true]
      exact ⟨by simp [hmain], getD_sel (aM1 H M) k hk⟩
    have hmNlen : sel (aM1 H M) k < (aNMask H M).length := by
      rw [aNMask_length H M hM]
      exact hsellt
    have hj : rk (aNMask H M) (sel (aM1 H M) k) < cnt (aNMask H M) :=
      rk_lt_cnt _ _ hmNlen haN
    have hjF : rk (aNMask H M) (sel (aM1 H M) k) < cnt (aFlag0 H M) := by
      rw [cnt_aFlag0_eq_aNMask H M ht hM]
      exact hj
    have hsback : sel (aNMask H M) (rk (aNMask H M) (sel (aM1 H M) k))
        = sel (aM1 H M) k := sel_rk _ _ hmNlen haN
    obtain ⟨hsp1, hsp2, hsp3⟩ := argsort_aIdxL_spec H M ht hM _ hj
    rw [hj']
    have hvj : (idxGather ((boolGather (aH1b NV M V H none) (aFlag1 H M)).map
          (fun h => h.target)) (argsort (aIdxL H M)) 0).getD
          (rk (aNMask H M) (sel (aM1 H M) k)) 0
        = ((boolGather (aH1b NV M V H none) (aFlag1 H M)).map
            (fun h => h.target)).getD
          ((argsort (aIdxL H M)).getD (rk (aNMask H M) (sel (aM1 H M) k)) 0) 0 := by
      rw [idxGather]
      exact tk_getD_map _ _ _
        (by rw [argsort_length, aIdxL_length H M hM]; exact hjF) 0 0
    have hpf1 : (argsort (aIdxL H M)).getD (rk (aNMask H M) (sel (aM1 H M) k)) 0
        < cnt (aFlag1 H M) := by
      rw [cnt_aFlag1 H M hM]
      exact hsp1
    have hslt : sel (aFlag1 H M)
        ((argsort (aIdxL H M)).getD (rk (aNMask H M) (sel (aM1 H M) k)) 0)
        < cnt (aM1 H M) := by
      have := sel_lt_length (aFlag1 H M) _ hpf1
      rwa [aFlag1_length H M hM] at this
    have hmaskat : (aFlag1 H M).getD (sel (aFlag1 H M)
        ((argsort (aIdxL H M)).getD (rk (aNMask H M) (sel (aM1 H M) k)) 0)) false
        = true := getD_sel _ _ hpf1
    have hmain2 : (heGet H (sel (aM1 H M) (sel (aFlag1 H M)
        ((argsort (aIdxL H M)).getD (rk (aNMask H M) (sel (aM1 H M) k)) 0)))).primary
        = 1 := by
      rw [aFlag1_getD H M hM _ hslt] at hmaskat
      exact decide_eq_true_eq.mp hmaskat
    have hbs := aH1b_getD NV H M V ht hM _ hslt
    rw [if_pos hmain2] at hbs
    have hnewT : ((boolGather (aH1b NV M V H none) (aFlag1 H M)).map
          (fun h => h.target)).getD
          ((argsort (aIdxL H M)).getD (rk (aNMask H M) (sel (aM1 H M) k)) 0) 0
        = NV + (argsort (aIdxL H M)).getD (rk (aNMask H M) (sel (aM1 H M) k)) 0 := by
      rw [tk_getD_map _ _ _
        (by rw [boolGather_length _ _ hglen]; exact hpf1) 0 zeroHE,
        show (boolGather (aH1b NV M V H none) (aFlag1 H M)).getD
            ((argsort (aIdxL H M)).getD (rk (aNMask H M) (sel (aM1 H M) k)) 0) zeroHE
          = (aH1b NV M V H none).getD (sel (aFlag1 H M)
            ((argsort (aIdxL H M)).getD (rk (aNMask H M) (sel (aM1 H M) k)) 0)) zeroHE
          from boolGather_getD _ _ hglen _ hpf1 zeroHE]
      show (heGet (aH1b NV M V H none) _).target = _
      rw [hbs]
      show NV + rk (aFlag0 H M) (sel (aM1 H M) (sel (aFlag1 H M) _)) = _
      rw [← rk_aFlag1 H M hM, rk_sel _ _ hpf1]
    have hb2 : (aH1b NV M V H none).getD k zeroHE = zeroHE := hb
    have hmo : mainOf H (sel (aM1 H M) k) = (heGet H (sel (aM1 H M) k)).twin := by
      unfold mainOf
      rw [if_neg hmain]
    rw [hvj, hnewT, hb2, hsp3, hsback, hmo]

theorem aH1_length (NV : Nat) (M : List Bool) (V : List Vec2)
    (H : List HalfEdge) (ht : twinOK H) (hM : M.length = H.length) :
    (aH1 NV M V H none).length = cnt (aM1 H M) := by
  have hNE1 := aNE1_eq H M V ht hM
  have hgm : (boolGather H (aM1 H M)).length = cnt (aM1 H M) :=
    boolGather_length _ _ (by rw [aM1_length, hM])
  simp only [aH1]
  rw [List.length_zipWith, List.length_zipWith, List.length_zipWith,
    List.length_zipWith, aH1c_length, hNE1, hgm]
  simp

theorem aH1_getD (NV : Nat) (H : List HalfEdge) (M : List Bool) (V : List Vec2)
    (ht : twinOK H) (hM : M.length = H.length) (k : Nat)
    (hk : k < cnt (aM1 H M)) :
    heGet (aH1 NV M V H none) k =
      { target := NV + rk (aFlag0 H M) (mainOf H (sel (aM1 H M) k)),
        region := (heGet H (sel (aM1 H M) k)).region,
        next := 0,
        prev := (heGet H (sel (aM1 H M) k)).prev,
        twin := (heGet H (sel (aM1 H M) k)).twin,
        primary := (heGet H (sel (aM1 H M) k)).primary } := by
  have hNE1 := aNE1_eq H M V ht hM
  have hgmlen : (boolGather H (aM1 H M)).length = cnt (aM1 H M) :=
    boolGather_length _ _ (by rw [aM1_length, hM])
  have hgm : (boolGather H (aM1 H M)).getD k zeroHE = heGet H (sel (aM1 H M) k) :=
    boolGather_getD _ _ (by rw [aM1_length, hM]) k hk zeroHE
  have hcl : (aH1c NV M V H none).length = cnt (aM1 H M) := by
    rw [aH1c_length, hNE1]
  have hdl : (List.zipWith (fun h1 h => { h1 with region := h.region })
      (aH1c NV M V H none) (boolGather H (aM1 H M))).length = cnt (aM1 H M) := by
    rw [List.length_zipWith, hcl, hgmlen, Nat.min_self]
  have hel : (List.zipWith (fun h1 h => { h1 with prev := h.prev })
      (List.zipWith (fun h1 h => { h1 with region := h.region })
        (aH1c NV M V H none) (boolGather H (aM1 H M)))
      (boolGather H (aM1 H M))).length = cnt (aM1 H M) := by
    rw [List.length_zipWith, hdl, hgmlen, Nat.min_self]
  have hfl : (List.zipWith (fun h1 h => { h1 with twin := h.twin })
      (List.zipWith (fun h1 h => { h1 with prev := h.prev })
        (List.zipWith (fun h1 h => { h1 with region := h.region })
          (aH1c NV M V H none) (boolGather H (aM1 H M)))
        (boolGather H (aM1 H M)))
      (boolGather H (aM1 H M))).length = cnt (aM1 H M) := by
    rw [List.length_zipWith, hel, hgmlen, Nat.min_self]
  have hc : (aH1c NV M V H none).getD k zeroHE =
      { zeroHE with
        target := NV + rk (aFlag0 H M) (mainOf H (sel (aM1 H M) k)) } :=
    aH1c_getD NV H M V ht hM k hk
  show (List.zipWith _ _ _).getD k zeroHE = _
  rw [tk_getD_zipWith _ _ _ k (by rw [hfl]; exact hk)
      (by rw [hgmlen]; exact hk) zeroHE zeroHE zeroHE,
    tk_getD_zipWith _ _ _ k (by rw [hel]; exact hk)
      (by rw [hgmlen]; exact hk) zeroHE zeroHE zeroHE,
    tk_getD_zipWith _ _ _ k (by rw [hdl]; exact hk)
      (by rw [hgmlen]; exact hk) zeroHE zeroHE zeroHE,
    tk_getD_zipWith _ _ _ k (by rw [hcl]; exact hk)
      (by rw [hgmlen]; exact hk) zeroHE zeroHE zeroHE,
    hgm, hc]
  rfl

/-! ## Row-level characterisation of the rewired old rows -/

theorem aHba_length (NE : Nat) (M : List Bool) (V : List Vec2)
    (H : List HalfEdge) (e : Option (List Vec2)) :
    (aHba NE M V H e).length = H.length :=
  boolScatterWith_length _ _ _ _

theorem aHba_getD (NE : Nat) (H : List HalfEdge) (M : List Bool) (V : List Vec2)
    (ht : twinOK H) (hM : M.length = H.length) (i : Nat) (hi : i < H.length) :
    heGet (aHba NE M V H none) i =
      if (aM1 H M).getD i false then
        { heGet H i with prev := NE + rk (aM1 H M) i }
      else heGet H i := by
  have hNE1 := aNE1_eq H M V ht hM
  have hmask : (aM1 H M).length = H.length := by rw [aM1_length, hM]
  have hvals : cnt (aM1 H M)
      ≤ (List.range' NE (2 * (aEc M V H none).length)).length := by
    rw [List.length_range', hNE1]
  show (boolScatterWith H (aM1 H M) _ _).getD i zeroHE = _
  rw [boolScatterWith_getD _ _ _ _ hmask hvals i hi zeroHE 0]
  by_cases hm : (aM1 H M).getD i false
  · rw [if_pos hm, if_pos hm]
    have hrk : rk (aM1 H M) i < cnt (aM1 H M) :=
      rk_lt_cnt _ _ (by rw [hmask]; exact hi) hm
    rw [tk_getD_range' NE _ _ (by rw [hNE1.symm] at hrk; exact hrk) 0]
    rfl
  · rw [if_neg hm, if_neg hm]
    rfl

theorem aHb_length (NE : Nat) (M : List Bool) (V : List Vec2)
    (H : List HalfEdge) (e : Option (List Vec2)) :
    (aHb NE M V H e).length = H.length := by
  simp only [aHb]
  rw [boolScatterWith_length, aHba_length]

theorem aHb_getD (NE : Nat) (H : List HalfEdge) (M : List Bool) (V : List Vec2)
    (ht : twinOK H) (hM : M.length = H.length) (i : Nat) (hi : i < H.length) :
    heGet (aHb NE M V H none) i =
      if (aM1 H M).getD i false then
        { heGet H i with
            prev := NE + rk (aM1 H M) i,
            twin := NE + rk (aM1 H M) ((heGet H i).twin) }
      else heGet H i := by
  have hNE1 := aNE1_eq H M V ht hM
  have hmk := aM1_markOK H M ht hM
  have hmask : (aM1 H M).length = (aHba NE M V H none).length := by
    rw [aM1_length, hM, aHba_length]
  have hglen : (aHba NE M V H none).length = (aM1 H M).length := hmask.symm
  have hvals : cnt (aM1 H M)
      ≤ (((boolGather (aHba NE M V H none) (aM1 H M)).map (fun h => h.twin)).map
          (fun j => (heGet (aHba NE M V H none) j).prev)).length := by
    rw [List.length_map, List.length_map, boolGather_length _ _ hglen]
  have hilen : i < (aHba NE M V H none).length := by
    rw [aHba_length]
    exact hi
  show (boolScatterWith (aHba NE M V H none) (aM1 H M) _ _).getD i zeroHE = _
  rw [boolScatterWith_getD _ _ _ _ hmask hvals i hilen zeroHE 0]
  by_cases hm : (aM1 H M).getD i false
  · rw [if_pos hm, if_pos hm]
    have hrk : rk (aM1 H M) i < cnt (aM1 H M) :=
      rk_lt_cnt _ _ (by rw [aM1_length, hM]; exact hi) hm
    -- the value written into the twin column
    have hidx2 : (((boolGather (aHba NE M V H none) (aM1 H M)).map
          (fun h => h.twin)).map
          (fun j => (heGet (aHba NE M V H none) j).prev)).getD (rk (aM1 H M) i) 0
        = (heGet (aHba NE M V H none) ((heGet H i).twin)).prev := by
      rw [tk_getD_map _ _ _ (by rw [List.length_map,
          boolGather_length _ _ hglen]; exact hrk) 0 0,
        tk_getD_map _ _ _ (by rw [boolGather_length _ _ hglen]; exact hrk)
          0 zeroHE,
        show (boolGather (aHba NE M V H none) (aM1 H M)).getD (rk (aM1 H M) i)
            zeroHE = (aHba NE M V H none).getD (sel (aM1 H M) (rk (aM1 H M) i))
            zeroHE
          from boolGather_getD _ _ hglen _ hrk zeroHE,
        sel_rk (aM1 H M) i (by rw [aM1_length, hM]; exact hi) hm]
      have htwup : ((aHba NE M V H none).getD i zeroHE).twin = (heGet H i).twin := by
        have hba := aHba_getD NE H M V ht hM i hi
        show (heGet (aHba NE M V H none) i).twin = _
        rw [hba, if_pos hm]
      rw [htwup]
    rw [hidx2]
    have htw : (heGet H i).twin < H.length := (ht i hi).1
    have htwm : (aM1 H M).getD ((heGet H i).twin) false = true := by
      rw [hmk.2 i hi]
      exact hm
    have hba2 := aHba_getD NE H M V ht hM ((heGet H i).twin) htw
    rw [if_pos htwm] at hba2
    rw [hba2]
    have hba3 := aHba_getD NE H M V ht hM i hi
    rw [if_pos hm] at hba3
    show { heGet (aHba NE M V H none) i with
        twin := ({ heGet H ((heGet H i).twin) with
            prev := NE + rk (aM1 H M) ((heGet H i).twin) } : HalfEdge).prev } = _
    rw [hba3]
  · rw [if_neg hm, if_neg hm]
    have hba := aHba_getD NE H M V ht hM i hi
    rw [if_neg hm] at hba
    exact hba

/-! ## Assembling the refined table: concatenation and next-column rebuild -/

theorem aHc_length (NV : Nat) (H : List HalfEdge) (M : List Bool) (V : List Vec2)
    (ht : twinOK H) (hM : M.length = H.length) :
    (aHc NV H.length M V H none).length = H.length + cnt (aM1 H M) := by
  rw [aHc, List.length_append, aHb_length, aH1_length NV M V H ht hM]

theorem aHc_getD_old (NV : Nat) (H : List HalfEdge) (M : List Bool) (V : List Vec2)
    (i : Nat) (hi : i < H.length) :
    heGet (aHc NV H.length M V H none) i = heGet (aHb H.length M V H none) i := by
  unfold aHc heGet
  exact List.getD_append _ _ zeroHE i (by rw [aHb_length]; exact hi)

theorem aHc_getD_new (NV : Nat) (H : List HalfEdge) (M : List Bool) (V : List Vec2)
    (k : Nat) :
    heGet (aHc NV H.length M V H none) (H.length + k)
      = heGet (aH1 NV M V H none) k := by
  unfold aHc heGet
  rw [List.getD_append_right _ _ zeroHE _ (by rw [aHb_length]; omega)]
  congr 1
  rw [aHb_length]
  omega

theorem prev_inj (H : List HalfEdge) (hp : prevOK H) (a b : Nat)
    (ha : a < H.length) (hb : b < H.length)
    (heq : (heGet H a).prev = (heGet H b).prev) : a = b := by
  have h1 := (hp a ha).2.2.1
  have h2 := (hp b hb).2.2.1
  rw [← h1, ← h2, heq]

theorem rk_inj_marked (m : List Bool) (a b : Nat) (ha : a < m.length)
    (hb : b < m.length) (hma : m.getD a false = true)
    (hmb : m.getD b false = true) (heq : rk m a = rk m b) : a = b := by
  have h1 := sel_rk m a ha hma
  have h2 := sel_rk m b hb hmb
  rw [← h1, ← h2, heq]

/-- The prev column of the concatenated table, i.e. the indices used by the
line-212 scatter. -/
theorem aHc_prev_old (NV : Nat) (H : List HalfEdge) (M : List Bool)
    (V : List Vec2) (ht : twinOK H) (hM : M.length = H.length) (i : Nat)
    (hi : i < H.length) :
    (heGet (aHc NV H.length M V H none) i).prev
      = if (aM1 H M).getD i false then H.length + rk (aM1 H M) i
        else (heGet H i).prev := by
  rw [aHc_getD_old NV H M V i hi, aHb_getD H.length H M V ht hM i hi]
  by_cases hm : (aM1 H M).getD i false
  · rw [if_pos hm, if_pos hm]
  · rw [if_neg hm, if_neg hm]

theorem aHc_prev_new (NV : Nat) (H : List HalfEdge) (M : List Bool)
    (V : List Vec2) (ht : twinOK H) (hM : M.length = H.length) (k : Nat)
    (hk : k < cnt (aM1 H M)) :
    (heGet (aHc NV H.length M V H none) (H.length + k)).prev
      = (heGet H (sel (aM1 H M) k)).prev := by
  rw [aHc_getD_new NV H M V k, aH1_getD NV H M V ht hM k hk]

theorem aHc_prev_ne (NV : Nat) (H : List HalfEdge) (M : List Bool)
    (V : List Vec2) (ht : twinOK H) (hp : prevOK H)
    (hM : M.length = H.length) (g1 g2 : Nat)
    (hg1 : g1 < H.length + cnt (aM1 H M)) (hg2 : g2 < H.length + cnt (aM1 H M))
    (hne : g1 ≠ g2) :
    (heGet (aHc NV H.length M V H none) g1).prev
      ≠ (heGet (aHc NV H.length M V H none) g2).prev := by
  have hm1len : (aM1 H M).length = H.length := by rw [aM1_length, hM]
  rcases Nat.lt_or_ge g1 H.length with h1o | h1n
  · rcases Nat.lt_or_ge g2 H.length with h2o | h2n
    · -- both old rows
      rw [aHc_prev_old NV H M V ht hM g1 h1o, aHc_prev_old NV H M V ht hM g2 h2o]
      by_cases hma : (aM1 H M).getD g1 false
      · by_cases hmb : (aM1 H M).getD g2 false
        · rw [if_pos hma, if_pos hmb]
          intro heq
          exact hne (rk_inj_marked (aM1 H M) g1 g2 (hm1len ▸ h1o)
            (hm1len ▸ h2o) hma hmb (by omega))
        · rw [if_pos hma, if_neg hmb]
          have := (hp g2 h2o).1
          omega
      · by_cases hmb : (aM1 H M).getD g2 false
        · rw [if_neg hma, if_pos hmb]
          have := (hp g1 h1o).1
          omega
        · rw [if_neg hma, if_neg hmb]
          intro heq
          exact hne (prev_inj H hp g1 g2 h1o h2o heq)
    · -- g1 old, g2 new
      obtain ⟨k, rfl⟩ : ∃ k, g2 = H.length + k := ⟨g2 - H.length, by omega⟩
      have hk : k < cnt (aM1 H M) := by omega
      have hselk : sel (aM1 H M) k < H.length := by
        have := sel_lt_length (aM1 H M) k hk
        rwa [hm1len] at this
      rw [aHc_prev_old NV H M V ht hM g1 h1o, aHc_prev_new NV H M V ht hM k hk]
      by_cases hma : (aM1 H M).getD g1 false
      · rw [if_pos hma]
        have := (hp _ hselk).1
        omega
      · rw [if_neg hma]
        intro heq
        have hg1eq : g1 = sel (aM1 H M) k := prev_inj H hp _ _ h1o hselk heq
        have hmk : (aM1 H M).getD (sel (aM1 H M) k) false = true :=
          getD_sel (aM1 H M) k hk
        rw [← hg1eq] at hmk
        rw [hmk] at hma
        exact hma rfl
  · rcases Nat.lt_or_ge g2 H.length with h2o | h2n
    · -- g1 new, g2 old
      obtain ⟨k, rfl⟩ : ∃ k, g1 = H.length + k := ⟨g1 - H.length, by omega⟩
      have hk : k < cnt (aM1 H M) := by omega
      have hselk : sel (aM1 H M) k < H.length := by
        have := sel_lt_length (aM1 H M) k hk
        rwa [hm1len] at this
      rw [aHc_prev_old NV H M V ht hM g2 h2o, aHc_prev_new NV H M V ht hM k hk]
      by_cases hmb : (aM1 H M).getD g2 false
      · rw [if_pos hmb]
        have := (hp _ hselk).1
        omega
      · rw [if_neg hmb]
        intro heq
        have hg2eq : sel (aM1 H M) k = g2 := prev_inj H hp _ _ hselk h2o heq
        have hmk : (aM1 H M).getD (sel (aM1 H M) k) false = true :=
          getD_sel (aM1 H M) k hk
        rw [hg2eq] at hmk
        rw [hmk] at hmb
        exact hmb rfl
    · -- both new
      obtain ⟨k1, rfl⟩ : ∃ k, g1 = H.length + k := ⟨g1 - H.length, by omega⟩
      obtain ⟨k2, rfl⟩ : ∃ k, g2 = H.length + k := ⟨g2 - H.length, by omega⟩
      have hk1 : k1 < cnt (aM1 H M) := by omega
      have hk2 : k2 < cnt (aM1 H M) := by omega
      have hsel1 : sel (aM1 H M) k1 < H.length := by
        have := sel_lt_length (aM1 H M) k1 hk1
        rwa [hm1len] at this
      have hsel2 : sel (aM1 H M) k2 < H.length := by
        have := sel_lt_length (aM1 H M) k2 hk2
        rwa [hm1len] at this
      rw [aHc_prev_new NV H M V ht hM k1 hk1, aHc_prev_new NV H M V ht hM k2 hk2]
      intro heq
      have hseleq : sel (aM1 H M) k1 = sel (aM1 H M) k2 :=
        prev_inj H hp _ _ hsel1 hsel2 heq
      have hkne : k1 ≠ k2 := by omega
      rcases Nat.lt_or_ge k1 k2 with hlt | hge
      · have := sel_strictMono (aM1 H M) k1 k2 hlt hk2
        omega
      · have : k2 < k1 := by omega
        have := sel_strictMono (aM1 H M) k2 k1 this hk1
        omega

theorem aNewH_fst_nodup (NV : Nat) (H : List HalfEdge) (M : List Bool)
    (V : List Vec2) (ht : twinOK H) (hp : prevOK H) (hM : M.length = H.length) :
    (((List.range (H.length + 2 * (aEc M V H none).length)).map
      (fun g => ((heGet (aHc NV H.length M V H none) g).prev, g))).map
        Prod.fst).Nodup := by
  have hNE1 := aNE1_eq H M V ht hM
  rw [List.map_map]
  show List.Pairwise (· ≠ ·) _
  rw [List.pairwise_iff_getElem]
  intro i j hi hj hij
  have hlen : (List.range (H.length + 2 * (aEc M V H none).length)).length
      = H.length + cnt (aM1 H M) := by
    rw [List.length_range, hNE1]
  have hi' : i < H.length + cnt (aM1 H M) := by
    rw [← hlen]
    simpa using hi
  have hj' : j < H.length + cnt (aM1 H M) := by
    rw [← hlen]
    simpa using hj
  have hgi : (List.map (Prod.fst ∘ fun g => ((heGet (aHc NV H.length M V H none) g).prev, g))
      (List.range (H.length + 2 * (aEc M V H none).length)))[i]
      = (heGet (aHc NV H.length M V H none) i).prev := by
    rw [List.getElem_map, List.getElem_range]
    rfl
  have hgj : (List.map (Prod.fst ∘ fun g => ((heGet (aHc NV H.length M V H none) g).prev, g))
      (List.range (H.length + 2 * (aEc M V H none).length)))[j]
      = (heGet (aHc NV H.length M V H none) j).prev := by
    rw [List.getElem_map, List.getElem_range]
    rfl
  rw [hgi, hgj]
  exact aHc_prev_ne NV H M V ht hp hM i j hi' hj' (Nat.ne_of_lt hij)

theorem aNewH_length (NV : Nat) (H : List HalfEdge) (M : List Bool)
    (V : List Vec2) (ht : twinOK H) (hM : M.length = H.length) :
    (aNewH NV H.length M V H none).length = H.length + cnt (aM1 H M) := by
  rw [aNewH, fancyNextScatter_length, aHc_length NV H M V ht hM]

theorem aNewH_old_getD (NV : Nat) (H : List HalfEdge) (M : List Bool)
    (V : List Vec2) (ht : twinOK H) (hp : prevOK H) (hM : M.length = H.length)
    (i : Nat) (hi : i < H.length) :
    heGet (aNewH NV H.length M V H none) i =
      { target := (heGet H i).target,
        region := (heGet H i).region,
        next := if (aM1 H M).getD ((heGet H i).next) false
          then H.length + rk (aM1 H M) ((heGet H i).next) else (heGet H i).next,
        prev := if (aM1 H M).getD i false then H.length + rk (aM1 H M) i
          else (heGet H i).prev,
        twin := if (aM1 H M).getD i false
          then H.length + rk (aM1 H M) ((heGet H i).twin)
          else (heGet H i).twin,
        primary := (heGet H i).primary } := by
  have hNE1 := aNE1_eq H M V ht hM
  have hm1len : (aM1 H M).length = H.length := by rw [aM1_length, hM]
  have hnextlt : (heGet H i).next < H.length := (hp i hi).2.1
  have hiC : i < (aHc NV H.length M V H none).length := by
    rw [aHc_length NV H M V ht hM]
    omega
  have hrow := aHc_getD_old NV H M V i hi
  by_cases hmn : (aM1 H M).getD ((heGet H i).next) false
  · have hrk : rk (aM1 H M) ((heGet H i).next) < cnt (aM1 H M) :=
      rk_lt_cnt _ _ (by rw [hm1len]; exact hnextlt) hmn
    have hpc : (heGet (aHc NV H.length M V H none)
        (H.length + rk (aM1 H M) ((heGet H i).next))).prev = i := by
      rw [aHc_prev_new NV H M V ht hM _ hrk,
        sel_rk _ _ (by rw [hm1len]; exact hnextlt) hmn]
      exact (hp i hi).2.2.2
    have hmem : (i, H.length + rk (aM1 H M) ((heGet H i).next))
        ∈ (List.range (H.length + 2 * (aEc M V H none).length)).map
          (fun g => ((heGet (aHc NV H.length M V H none) g).prev, g)) := by
      apply List.mem_map.mpr
      refine ⟨H.length + rk (aM1 H M) ((heGet H i).next),
        List.mem_range.mpr (by omega), ?_⟩
      rw [hpc]
    show heGet (fancyNextScatter _ _) i = _
    rw [fancyNextScatter_getD_mem _ _ i _
      (aNewH_fst_nodup NV H M V ht hp hM) hmem hiC, hrow,
      aHb_getD H.length H M V ht hM i hi, if_pos hmn]
    by_cases hm : (aM1 H M).getD i false
    · rw [if_pos hm, if_pos hm, if_pos hm]
    · rw [if_neg hm, if_neg hm, if_neg hm]
  · have hpc : (heGet (aHc NV H.length M V H none) ((heGet H i).next)).prev
        = i := by
      rw [aHc_prev_old NV H M V ht hM _ hnextlt, if_neg hmn]
      exact (hp i hi).2.2.2
    have hmem : (i, (heGet H i).next)
        ∈ (List.range (H.length + 2 * (aEc M V H none).length)).map
          (fun g => ((heGet (aHc NV H.length M V H none) g).prev, g)) := by
      apply List.mem_map.mpr
      refine ⟨(heGet H i).next, List.mem_range.mpr (by omega), ?_⟩
      rw [hpc]
    show heGet (fancyNextScatter _ _) i = _
    rw [fancyNextScatter_getD_mem _ _ i _
      (aNewH_fst_nodup NV H M V ht hp hM) hmem hiC, hrow,
      aHb_getD H.length H M V ht hM i hi, if_neg hmn]
    by_cases hm : (aM1 H M).getD i false
    · rw [if_pos hm, if_pos hm, if_pos hm]
    · rw [if_neg hm, if_neg hm, if_neg hm]

theorem aNewH_new_getD (NV : Nat) (H : List HalfEdge) (M : List Bool)
    (V : List Vec2) (ht : twinOK H) (hp : prevOK H) (hM : M.length = H.length)
    (k : Nat) (hk : k < cnt (aM1 H M)) :
    heGet (aNewH NV H.length M V H none) (H.length + k) =
      { target := NV + rk (aFlag0 H M) (mainOf H (sel (aM1 H M) k)),
        region := (heGet H (sel (aM1 H M) k)).region,
        next := sel (aM1 H M) k,
        prev := (heGet H (sel (aM1 H M) k)).prev,
        twin := (heGet H (sel (aM1 H M) k)).twin,
        primary := (heGet H (sel (aM1 H M) k)).primary } := by
  have hNE1 := aNE1_eq H M V ht hM
  have hm1len : (aM1 H M).length = H.length := by rw [aM1_length, hM]
  have hsellt : sel (aM1 H M) k < H.length := by
    have := sel_lt_length (aM1 H M) k hk
    rwa [hm1len] at this
  have hselm : (aM1 H M).getD (sel (aM1 H M) k) false = true :=
    getD_sel (aM1 H M) k hk
  have hiC : H.length + k < (aHc NV H.length M V H none).length := by
    rw [aHc_length NV H M V ht hM]
    omega
  have hpc : (heGet (aHc NV H.length M V H none) (sel (aM1 H M) k)).prev
      = H.length + k := by
    rw [aHc_prev_old NV H M V ht hM _ hsellt, if_pos hselm,
      rk_sel (aM1 H M) k hk]
  have hmem : (H.length + k, sel (aM1 H M) k)
      ∈ (List.range (H.length + 2 * (aEc M V H none).length)).map
        (fun g => ((heGet (aHc NV H.length M V H none) g).prev, g)) := by
    apply List.mem_map.mpr
    refine ⟨sel (aM1 H M) k, List.mem_range.mpr (by omega), ?_⟩
    rw [hpc]
  show heGet (fancyNextScatter _ _) (H.length + k) = _
  rw [fancyNextScatter_getD_mem _ _ _ _
    (aNewH_fst_nodup NV H M V ht hp hM) hmem hiC,
    aHc_getD_new NV H M V k, aH1_getD NV H M V ht hM k hk]

/-! ## Preservation of the structural invariants by adaptive refinement -/

theorem aNewH_validTopo (NV : Nat) (H : List HalfEdge) (M : List Bool)
    (V : List Vec2) (hv : validTopo H = true) (hM : M.length = H.length) :
    validTopo (aNewH NV H.length M V H none) = true := by
  obtain ⟨ht, hp⟩ := (validTopo_iff H).mp hv
  have hmk := aM1_markOK H M ht hM
  have hm1len : (aM1 H M).length = H.length := by rw [aM1_length, hM]
  have hL := aNewH_length NV H M V ht hM
  have hold := aNewH_old_getD NV H M V ht hp hM
  have hnew := aNewH_new_getD NV H M V ht hp hM
  -- field accessors for old rows
  have htwO : ∀ i, i < H.length → (heGet (aNewH NV H.length M V H none) i).twin
      = if (aM1 H M).getD i false
        then H.length + rk (aM1 H M) ((heGet H i).twin) else (heGet H i).twin := by
    intro i hi
    rw [hold i hi]
  have hpvO : ∀ i, i < H.length → (heGet (aNewH NV H.length M V H none) i).prev
      = if (aM1 H M).getD i false
        then H.length + rk (aM1 H M) i else (heGet H i).prev := by
    intro i hi
    rw [hold i hi]
  have hnxO : ∀ i, i < H.length → (heGet (aNewH NV H.length M V H none) i).next
      = if (aM1 H M).getD ((heGet H i).next) false
        then H.length + rk (aM1 H M) ((heGet H i).next) else (heGet H i).next := by
    intro i hi
    rw [hold i hi]
  have hprO : ∀ i, i < H.length →
      (heGet (aNewH NV H.length M V H none) i).primary = (heGet H i).primary := by
    intro i hi
    rw [hold i hi]
  have htwN : ∀ k, k < cnt (aM1 H M) →
      (heGet (aNewH NV H.length M V H none) (H.length + k)).twin
      = (heGet H (sel (aM1 H M) k)).twin := by
    intro k hk
    rw [hnew k hk]
  have hpvN : ∀ k, k < cnt (aM1 H M) →
      (heGet (aNewH NV H.length M V H none) (H.length + k)).prev
      = (heGet H (sel (aM1 H M) k)).prev := by
    intro k hk
    rw [hnew k hk]
  have hnxN : ∀ k, k < cnt (aM1 H M) →
      (heGet (aNewH NV H.length M V H none) (H.length + k)).next
      = sel (aM1 H M) k := by
    intro k hk
    rw [hnew k hk]
  have hprN : ∀ k, k < cnt (aM1 H M) →
      (heGet (aNewH NV H.length M V H none) (H.length + k)).primary
      = (heGet H (sel (aM1 H M) k)).primary := by
    intro k hk
    rw [hnew k hk]
  have hselF : ∀ k, k < cnt (aM1 H M) → sel (aM1 H M) k < H.length := by
    intro k hk
    have := sel_lt_length (aM1 H M) k hk
    rwa [hm1len] at this
  apply (validTopo_iff _).mpr
  constructor
  · -- twinOK of the output
    intro r hr
    rw [hL] at hr
    rcases Nat.lt_or_ge r H.length with hro | hrn
    · rw [htwO r hro]
      by_cases hm : (aM1 H M).getD r false
      · rw [if_pos hm]
        have htb : (heGet H r).twin < H.length := (ht r hro).1
        have hmt : (aM1 H M).getD ((heGet H r).twin) false = true := by
          rw [hmk.2 r hro]
          exact hm
        have hrkt : rk (aM1 H M) ((heGet H r).twin) < cnt (aM1 H M) :=
          rk_lt_cnt _ _ (by rw [hm1len]; exact htb) hmt
        refine ⟨by omega, ?_, ?_⟩
        · rw [htwN _ hrkt, sel_rk _ _ (by rw [hm1len]; exact htb) hmt,
            (ht r hro).2.1]
        · rw [hprO r hro, hprN _ hrkt,
            sel_rk _ _ (by rw [hm1len]; exact htb) hmt]
          exact (ht r hro).2.2
      · rw [if_neg hm]
        have htb : (heGet H r).twin < H.length := (ht r hro).1
        have hmt : (aM1 H M).getD ((heGet H r).twin) false = false := by
          rw [hmk.2 r hro]
          simpa using hm
        refine ⟨by omega, ?_, ?_⟩
        · rw [htwO _ htb, if_neg (by rw [hmt]; simp), (ht r hro).2.1]
        · rw [hprO r hro, hprO _ htb]
          exact (ht r hro).2.2
    · obtain ⟨k, rfl⟩ : ∃ k, r = H.length + k := ⟨r - H.length, by omega⟩
      have hk : k < cnt (aM1 H M) := by omega
      have hsk := hselF k hk
      have hskm : (aM1 H M).getD (sel (aM1 H M) k) false = true :=
        getD_sel (aM1 H M) k hk
      have htb : (heGet H (sel (aM1 H M) k)).twin < H.length := (ht _ hsk).1
      have hmt : (aM1 H M).getD ((heGet H (sel (aM1 H M) k)).twin) false = true := by
        rw [hmk.2 _ hsk]
        exact hskm
      rw [htwN k hk]
      refine ⟨by omega, ?_, ?_⟩
      · rw [htwO _ htb, if_pos hmt, (ht _ hsk).2.1, rk_sel _ _ hk]
      · rw [hprN k hk, hprO _ htb]
        exact (ht _ hsk).2.2
  · -- prevOK of the output
    intro r hr
    rw [hL] at hr
    rcases Nat.lt_or_ge r H.length with hro | hrn
    · have hpb : (heGet H r).prev < H.length := (hp r hro).1
      have hnb : (heGet H r).next < H.length := (hp r hro).2.1
      refine ⟨?_, ?_, ?_, ?_⟩
      · rw [hpvO r hro]
        by_cases hm : (aM1 H M).getD r false
        · rw [if_pos hm]
          have := rk_lt_cnt (aM1 H M) r (by rw [hm1len]; exact hro) hm
          omega
        · rw [if_neg hm]
          omega
      · rw [hnxO r hro]
        by_cases hm : (aM1 H M).getD ((heGet H r).next) false
        · rw [if_pos hm]
          have := rk_lt_cnt (aM1 H M) _ (by rw [hm1len]; exact hnb) hm
          omega
        · rw [if_neg hm]
          omega
      · -- next (prev r) = r
        rw [hpvO r hro]
        by_cases hm : (aM1 H M).getD r false
        · rw [if_pos hm]
          have hrk : rk (aM1 H M) r < cnt (aM1 H M) :=
            rk_lt_cnt _ _ (by rw [hm1len]; exact hro) hm
          rw [hnxN _ hrk, sel_rk _ _ (by rw [hm1len]; exact hro) hm]
        · rw [if_neg hm]
          rw [hnxO _ hpb, (hp r hro).2.2.1, if_neg hm]
      · -- prev (next r) = r
        rw [hnxO r hro]
        by_cases hm : (aM1 H M).getD ((heGet H r).next) false
        · rw [if_pos hm]
          have hrk : rk (aM1 H M) ((heGet H r).next) < cnt (aM1 H M) :=
            rk_lt_cnt _ _ (by rw [hm1len]; exact hnb) hm
          rw [hpvN _ hrk, sel_rk _ _ (by rw [hm1len]; exact hnb) hm]
          exact (hp r hro).2.2.2
        · rw [if_neg hm]
          rw [hpvO _ hnb, if_neg hm]
          exact (hp r hro).2.2.2
    · obtain ⟨k, rfl⟩ : ∃ k, r = H.length + k := ⟨r - H.length, by omega⟩
      have hk : k < cnt (aM1 H M) := by omega
      have hsk := hselF k hk
      have hskm : (aM1 H M).getD (sel (aM1 H M) k) false = true :=
        getD_sel (aM1 H M) k hk
      have hpb : (heGet H (sel (aM1 H M) k)).prev < H.length := (hp _ hsk).1
      refine ⟨?_, ?_, ?_, ?_⟩
      · rw [hpvN k hk]
        omega
      · rw [hnxN k hk]
        omega
      · -- next (prev (NE + k)) = NE + k
        rw [hpvN k hk, hnxO _ hpb, (hp _ hsk).2.2.1, if_pos hskm,
          rk_sel _ _ hk]
      · -- prev (next (NE + k)) = NE + k
        rw [hnxN k hk, hpvO _ hsk, if_pos hskm, rk_sel _ _ hk]

/-! ## The all-true marking: adaptive refinement degenerates to uniform -/

theorem cnt_replicate_true (n : Nat) : cnt (List.replicate n true) = n := by
  induction n with
  | zero => rfl
  | succ n ih => rw [List.replicate_succ, cnt_cons_true, ih]

theorem rk_replicate_true (n i : Nat) (h : i ≤ n) :
    rk (List.replicate n true) i = i := by
  induction i generalizing n with
  | zero => rfl
  | succ i ih =>
    cases n with
    | zero => omega
    | succ n =>
      rw [List.replicate_succ, rk_cons_succ_true, ih n (by omega)]

theorem sel_replicate_true (n k : Nat) (h : k < n) :
    sel (List.replicate n true) k = k := by
  induction k generalizing n with
  | zero =>
    cases n with
    | zero => omega
    | succ n => rw [List.replicate_succ]; rfl
  | succ k ih =>
    cases n with
    | zero => omega
    | succ n =>
      rw [List.replicate_succ]
      show sel (List.replicate n true) k + 1 = k + 1
      rw [ih n (by omega)]

theorem set_true_replicate (n j : Nat) :
    (List.replicate n true).set j true = List.replicate n true := by
  induction n generalizing j with
  | zero => rfl
  | succ n ih =>
    cases j with
    | zero => rw [List.replicate_succ]; rfl
    | succ j =>
      rw [List.replicate_succ]
      show (true :: (List.replicate n true).set j true) = _
      rw [ih j]

theorem setTrueAt_replicate_true (n : Nat) (idxs : List Nat) :
    setTrueAt (List.replicate n true) idxs = List.replicate n true := by
  induction idxs with
  | nil => rfl
  | cons j idxs ih =>
    show setTrueAt ((List.replicate n true).set j true) idxs = _
    rw [set_true_replicate n j, ih]

theorem boolGather_replicate_true (xs : List α) :
    boolGather xs (List.replicate xs.length true) = xs := by
  induction xs with
  | nil => rfl
  | cons x xs ih =>
    show boolGather (x :: xs) (true :: List.replicate xs.length true) = _
    rw [boolGather_cons_true, ih]

theorem zipWith_and_replicate_true (A : List Bool) :
    List.zipWith (fun a b => a && b) A (List.replicate A.length true) = A := by
  induction A with
  | nil => rfl
  | cons a A ih =>
    show (a && true) :: List.zipWith (fun a b => a && b) A (List.replicate A.length true) = _
    rw [ih, Bool.and_true]

theorem boolScatterWith_replicate_true (xs : List α) (vals : List β)
    (upd : α → β → α) (h : xs.length ≤ vals.length) :
    boolScatterWith xs (List.replicate xs.length true) vals upd
      = List.zipWith upd xs vals := by
  induction xs generalizing vals with
  | nil => cases vals <;> rfl
  | cons x xs ih =>
    cases vals with
    | nil => simp at h
    | cons v vs =>
      show boolScatterWith (x :: xs) (true :: List.replicate xs.length true)
          (v :: vs) upd = _
      show upd x v :: boolScatterWith xs (List.replicate xs.length true) vs upd = _
      rw [ih vs (by simpa using h)]
      rfl

theorem boolGather_replicate_true' (xs : List α) (n : Nat) (h : n = xs.length) :
    boolGather xs (List.replicate n true) = xs := by
  subst h
  exact boolGather_replicate_true xs

theorem zipWith_and_replicate_true' (A : List Bool) (n : Nat)
    (h : n = A.length) :
    List.zipWith (fun a b => a && b) A (List.replicate n true) = A := by
  subst h
  exact zipWith_and_replicate_true A

theorem boolScatterWith_replicate_true' (xs : List α) (vals : List β)
    (upd : α → β → α) (n : Nat) (hn : n = xs.length)
    (h : xs.length ≤ vals.length) :
    boolScatterWith xs (List.replicate n true) vals upd
      = List.zipWith upd xs vals := by
  subst hn
  exact boolScatterWith_replicate_true xs vals upd h

theorem allTrue_aM1 (H : List HalfEdge) :
    aM1 H (List.replicate H.length true) = List.replicate H.length true := by
  rw [aM1, setTrueAt_replicate_true]

theorem allTrue_aFlag0 (H : List HalfEdge) :
    aFlag0 H (List.replicate H.length true) = mainMask H := by
  rw [aFlag0, allTrue_aM1,
    zipWith_and_replicate_true' (mainMask H) H.length (mainMask_length H).symm]

theorem allTrue_aIdxL (H : List HalfEdge) :
    aIdxL H (List.replicate H.length true) = uIdxL H := by
  rw [aIdxL, allTrue_aFlag0]
  rfl

theorem allTrue_aEc (H : List HalfEdge) (V : List Vec2) :
    aEc (List.replicate H.length true) V H none = uEc V H := by
  show List.zipWith vmid _ _ = _
  rw [allTrue_aFlag0, allTrue_aIdxL]
  rfl

theorem allTrue_aFlag1 (H : List HalfEdge) :
    aFlag1 H (List.replicate H.length true) = mainMask H := by
  rw [aFlag1, allTrue_aM1,
    boolGather_replicate_true' (mainMask H) H.length (mainMask_length H).symm]

theorem mainMask_double (H : List HalfEdge) (ht : twinOK H) :
    H.length = 2 * cnt (mainMask H) := by
  have h1 := cnt_aM1_double H (List.replicate H.length true) ht (by simp)
  rwa [allTrue_aM1, cnt_replicate_true, allTrue_aFlag0] at h1

theorem uEc_length (V : List Vec2) (H : List HalfEdge) :
    (uEc V H).length = cnt (mainMask H) := by
  rw [← allTrue_aEc, aEc_none_length H _ V (by simp), allTrue_aFlag0]

theorem allTrue_aH1a (H : List HalfEdge) (V : List Vec2) (ht : twinOK H) :
    aH1a (List.replicate H.length true) V H none = uH1a H.length := by
  rw [aH1a, uH1a, allTrue_aEc, uEc_length, ← mainMask_double H ht]

theorem allTrue_aH1b (NV : Nat) (H : List HalfEdge) (V : List Vec2)
    (ht : twinOK H) :
    aH1b NV (List.replicate H.length true) V H none = uH1b NV H.length H := by
  rw [aH1b, uH1b, allTrue_aH1a _ _ ht, allTrue_aFlag1, allTrue_aEc, uEc_length]
  have hd := mainMask_double H ht
  have h2 : 2 * cnt (mainMask H) / 2 = H.length / 2 := by omega
  rw [h2]

theorem allTrue_aH1c (NV : Nat) (H : List HalfEdge) (V : List Vec2)
    (ht : twinOK H) :
    aH1c NV (List.replicate H.length true) V H none = uH1c NV H.length H := by
  rw [aH1c, uH1c, allTrue_aH1b _ _ _ ht, allTrue_aFlag1, allTrue_aIdxL]

theorem allTrue_aH1 (NV : Nat) (H : List HalfEdge) (V : List Vec2)
    (ht : twinOK H) :
    aH1 NV (List.replicate H.length true) V H none = uH1 NV H.length H := by
  simp only [aH1, uH1]
  rw [allTrue_aH1c _ _ _ ht, allTrue_aM1,
    boolGather_replicate_true' H H.length rfl]

theorem allTrue_aHba (H : List HalfEdge) (V : List Vec2) (ht : twinOK H) :
    aHba H.length (List.replicate H.length true) V H none = uHba H.length H := by
  rw [aHba, uHba, allTrue_aM1, allTrue_aEc, uEc_length, ← mainMask_double H ht,
    boolScatterWith_replicate_true' H _ _ H.length rfl
      (by rw [List.length_range'])]

theorem allTrue_aHb (H : List HalfEdge) (V : List Vec2) (ht : twinOK H) :
    aHb H.length (List.replicate H.length true) V H none = uHb H.length H := by
  simp only [aHb, uHb]
  rw [allTrue_aM1, allTrue_aHba _ _ ht,
    boolGather_replicate_true' (uHba H.length H) H.length (by simp [uHba]),
    boolScatterWith_replicate_true' (uHba H.length H) _ _ H.length
      (by simp [uHba]) (by simp [uHba])]

theorem allTrue_aHc (NV : Nat) (H : List HalfEdge) (V : List Vec2)
    (ht : twinOK H) :
    aHc NV H.length (List.replicate H.length true) V H none
      = uHc NV H.length H := by
  rw [aHc, uHc, allTrue_aHb _ _ ht, allTrue_aH1 _ _ _ ht]

theorem allTrue_aNewH (NV : Nat) (H : List HalfEdge) (V : List Vec2)
    (ht : twinOK H) :
    aNewH NV H.length (List.replicate H.length true) V H none
      = uNewH NV H.length H := by
  rw [aNewH, uNewH, allTrue_aHc _ _ _ ht, allTrue_aEc, uEc_length,
    ← mainMask_double H ht, Nat.two_mul H.length]

/-! ## Wrapper-level results -/

theorem adaptive_allTrue_eq_uniform (d : HEDomain)
    (hc : d.NE = d.halfedge.length)
    (hv : validTopo d.halfedge = true) :
    boundary_adaptive_refine d (List.replicate d.NE true) none
      = boundary_uniform_refine d 1 := by
  obtain ⟨ht, hp⟩ := (validTopo_iff _).mp hv
  have hd := mainMask_double d.halfedge ht
  show boundary_adaptive_refine d (List.replicate d.NE true) none = uniformStep d
  simp only [boundary_adaptive_refine, uniformStep]
  rw [hc]
  congr 1
  · rw [allTrue_aEc]
  · rw [allTrue_aNewH _ _ _ ht]
  · rw [allTrue_aEc]
  · rw [allTrue_aEc, uEc_length]
    omega
  · rw [allTrue_aEc, uEc_length]
    omega

theorem uNewH_validTopo (NV : Nat) (H : List HalfEdge)
    (hv : validTopo H = true) :
    validTopo (uNewH NV H.length H) = true := by
  obtain ⟨ht, _⟩ := (validTopo_iff H).mp hv
  rw [← allTrue_aNewH NV H [] ht]
  exact aNewH_validTopo NV H _ [] hv (by simp)

theorem uNewH_length (NV : Nat) (H : List HalfEdge) (hv : validTopo H = true) :
    (uNewH NV H.length H).length = 2 * H.length := by
  obtain ⟨ht, _⟩ := (validTopo_iff H).mp hv
  rw [← allTrue_aNewH NV H [] ht,
    aNewH_length NV H _ [] ht (by simp), allTrue_aM1, cnt_replicate_true]
  omega

theorem uNewH_old_getD (NV : Nat) (H : List HalfEdge) (hv : validTopo H = true)
    (i : Nat) (hi : i < H.length) :
    heGet (uNewH NV H.length H) i =
      { target := (heGet H i).target,
        region := (heGet H i).region,
        next := H.length + (heGet H i).next,
        prev := H.length + i,
        twin := H.length + (heGet H i).twin,
        primary := (heGet H i).primary } := by
  obtain ⟨ht, hp⟩ := (validTopo_iff H).mp hv
  rw [← allTrue_aNewH NV H [] ht,
    aNewH_old_getD NV H _ [] ht hp (by simp) i hi, allTrue_aM1]
  have hmr : ∀ x, x < H.length →
      (List.replicate H.length true).getD x false = true := by
    intro x hx
    exact tk_getD_replicate true _ x hx false
  have hnb : (heGet H i).next < H.length := (hp i hi).2.1
  have htb : (heGet H i).twin < H.length := (ht i hi).1
  rw [if_pos (hmr _ hnb), if_pos (hmr _ hi), if_pos (hmr _ hi),
    rk_replicate_true _ _ (by omega), rk_replicate_true _ _ (by omega),
    rk_replicate_true _ _ (by omega)]

theorem uNewH_new_getD (NV : Nat) (H : List HalfEdge) (hv : validTopo H = true)
    (k : Nat) (hk : k < H.length) :
    heGet (uNewH NV H.length H) (H.length + k) =
      { target := NV + rk (mainMask H) (mainOf H k),
        region := (heGet H k).region,
        next := k,
        prev := (heGet H k).prev,
        twin := (heGet H k).twin,
        primary := (heGet H k).primary } := by
  obtain ⟨ht, hp⟩ := (validTopo_iff H).mp hv
  rw [← allTrue_aNewH NV H [] ht,
    aNewH_new_getD NV H _ [] ht hp (by simp) k
      (by rw [allTrue_aM1, cnt_replicate_true]; exact hk)]
  rw [allTrue_aM1, allTrue_aFlag0, sel_replicate_true _ _ hk]

theorem uniformStep_counts (d : HEDomain) (hc : d.NE = d.halfedge.length)
    (hv : validTopo d.halfedge = true) :
    (uniformStep d).NE = (uniformStep d).halfedge.length
      ∧ validTopo (uniformStep d).halfedge = true := by
  constructor
  · show 2 * d.NE = (uNewH d.NV d.NE d.halfedge).length
    rw [hc, uNewH_length d.NV d.halfedge hv]
  · show validTopo (uNewH d.NV d.NE d.halfedge) = true
    rw [hc]
    exact uNewH_validTopo d.NV d.halfedge hv

theorem uniform_refine_counts (d : HEDomain) (n : Nat)
    (hc : d.NE = d.halfedge.length) (hv : validTopo d.halfedge = true) :
    (boundary_uniform_refine d n).NE
        = (boundary_uniform_refine d n).halfedge.length
      ∧ validTopo (boundary_uniform_refine d n).halfedge = true := by
  induction n generalizing d with
  | zero => exact ⟨hc, hv⟩
  | succ n ih =>
    show (boundary_uniform_refine (uniformStep d) n).NE = _
      ∧ validTopo (boundary_uniform_refine (uniformStep d) n).halfedge = true
    obtain ⟨h1, h2⟩ := uniformStep_counts d hc hv
    exact ih (uniformStep d) h1 h2

theorem adaptive_refine_validTopo (d : HEDomain) (M : List Bool)
    (hc : d.NE = d.halfedge.length) (hv : validTopo d.halfedge = true)
    (hM : M.length = d.halfedge.length) :
    validTopo (boundary_adaptive_refine d M none).halfedge = true := by
  show validTopo (aNewH d.NV d.NE M d.vertices d.halfedge none) = true
  rw [hc]
  exact aNewH_validTopo d.NV d.halfedge M d.vertices hv hM

/-- C1: for every `HalfEdgeDomain` whose half-edge table satisfies the
structural invariants (`twin(twin(h)) = h`, `next(prev(h)) = h`,
`prev(next(h)) = h`, exactly one primary half-edge per undirected edge —
all collected, together with index-validity of the pointers, in
`validTopo`), the tables produced by `boundary_uniform_refine` (any number
of levels) and by `boundary_adaptive_refine` (any marking of the right
length) satisfy the same invariants again.  The `hc` hypothesis is the
count/array synchronisation that the `HalfEdgeDomain` constructor
establishes. -/
theorem C1_refine_preserves_invariants (d : HEDomain) (n : Nat)
    (M : List Bool) (hc : d.NE = d.halfedge.length)
    (hv : validTopo d.halfedge = true)
    (hM : M.length = d.halfedge.length) :
    validTopo (boundary_uniform_refine d n).halfedge = true ∧
    validTopo (boundary_adaptive_refine d M none).halfedge = true :=
  ⟨(uniform_refine_counts d n hc hv).2, adaptive_refine_validTopo d M hc hv hM⟩

theorem C1_witness :
    validTopo (boundary_uniform_refine sqDomain 2).halfedge = true ∧
    validTopo (boundary_adaptive_refine sqDomain markOne none).halfedge = true :=
  C1_refine_preserves_invariants sqDomain 2 markOne (by decide) (by decide)
    (by decide)

/-- C3: calling `boundary_adaptive_refine` with every half-edge marked (and
no explicit edge centers) produces exactly the same state — vertex array,
half-edge table, fixed flags and the `NV`/`NE` counters — as one level of
`boundary_uniform_refine`. -/
theorem C3_adaptive_all_marked_eq_uniform (d : HEDomain)
    (hc : d.NE = d.halfedge.length) (hv : validTopo d.halfedge = true) :
    boundary_adaptive_refine d (List.replicate d.NE true) none
      = boundary_uniform_refine d 1 :=
  adaptive_allTrue_eq_uniform d hc hv

theorem C3_witness :
    boundary_adaptive_refine sqDomain (List.replicate sqDomain.NE true) none
      = boundary_uniform_refine sqDomain 1 :=
  C3_adaptive_all_marked_eq_uniform sqDomain (by decide) (by decide)

theorem uEc_getD (V : List Vec2) (H : List HalfEdge) (j : Nat)
    (hj : j < cnt (mainMask H)) :
    (uEc V H).getD j origin =
      vmid (V.getD (heGet H (sel (mainMask H) j)).target origin)
        (V.getD (heGet H (heGet H (sel (mainMask H) j)).twin).target origin) := by
  have hlen : H.length = (mainMask H).length := (mainMask_length H).symm
  have hg : (boolGather H (mainMask H)).length = cnt (mainMask H) :=
    boolGather_length H (mainMask H) hlen
  rw [uEc, tk_getD_zipWith vmid _ _ j
      (by rw [List.length_map, hg]; exact hj)
      (by rw [List.length_map, uIdxL, List.length_map, hg]; exact hj)
      origin origin origin,
    tk_getD_map _ _ j (by rw [hg]; exact hj) origin zeroHE,
    tk_getD_map _ _ j (by rw [uIdxL, List.length_map, hg]; exact hj) origin 0,
    uIdxL, tk_getD_map _ _ j (by rw [hg]; exact hj) 0 zeroHE,
    boolGather_getD H (mainMask H) hlen j hj zeroHE]
  rfl

theorem uniformStep_vlen (d : HEDomain) (hv : validTopo d.halfedge = true) :
    (uniformStep d).vertices.length
      = d.vertices.length + d.halfedge.length / 2 := by
  obtain ⟨ht, _⟩ := (validTopo_iff _).mp hv
  have hd := mainMask_double d.halfedge ht
  show (d.vertices ++ uEc d.vertices d.halfedge).length = _
  rw [List.length_append, uEc_length]
  omega

theorem uniformStep_new_vertex (d : HEDomain) (hv : validTopo d.halfedge = true)
    (j : Nat) (hj : j < d.halfedge.length / 2) :
    (uniformStep d).vertices.getD (d.vertices.length + j) origin
      = edgeMidpoint d j := by
  obtain ⟨ht, _⟩ := (validTopo_iff _).mp hv
  have hd := mainMask_double d.halfedge ht
  have hj' : j < cnt (mainMask d.halfedge) := by omega
  show (d.vertices ++ uEc d.vertices d.halfedge).getD _ origin = _
  rw [List.getD_append_right _ _ _ _ (Nat.le_add_right _ _),
    Nat.add_sub_cancel_left, uEc_getD _ _ _ hj']
  rfl

theorem bur_succ (d : HEDomain) (n : Nat) :
    boundary_uniform_refine d (n + 1)
      = uniformStep (boundary_uniform_refine d n) := by
  induction n generalizing d with
  | zero => rfl
  | succ n ih =>
    show boundary_uniform_refine (uniformStep d) (n + 1) = _
    rw [ih (uniformStep d)]
    rfl

theorem uniform_refine_length (d : HEDomain) (n : Nat)
    (hc : d.NE = d.halfedge.length) (hv : validTopo d.halfedge = true) :
    (boundary_uniform_refine d n).halfedge.length
      = d.halfedge.length * 2 ^ n := by
  induction n generalizing d with
  | zero => simp [boundary_uniform_refine]
  | succ n ih =>
    obtain ⟨h1, h2⟩ := uniformStep_counts d hc hv
    have hstep : (uniformStep d).halfedge.length = 2 * d.halfedge.length := by
      show (uNewH d.NV d.NE d.halfedge).length = _
      rw [hc, uNewH_length d.NV d.halfedge hv]
    have hrec := ih (uniformStep d) h1 h2
    show (boundary_uniform_refine (uniformStep d) n).halfedge.length = _
    rw [hrec, hstep, pow_succ]
    ring

/-- C2: for every valid domain, `boundary_uniform_refine n` (in place)
multiplies the half-edge count by `2^n`; each level `i` adds exactly
(half-edge count at level `i`)/2 new vertices, appended after the existing
ones, each the arithmetic midpoint of the two endpoints of its parent
undirected edge; concretely on the unit square (8 half-edges) one level
yields 16 half-edges and 4 new vertices, the new vertex of index 4 being
`(1/2, 0)`, the midpoint of the parent edge whose endpoints are `(1,0)` and
`(0,0)`. -/
theorem C2_uniform_counts_and_midpoints (d : HEDomain) (n : Nat)
    (hc : d.NE = d.halfedge.length) (hv : validTopo d.halfedge = true) :
    ((boundary_uniform_refine d n).halfedge.length
        = d.halfedge.length * 2 ^ n ∧
      ∀ i, i < n →
        (boundary_uniform_refine d (i + 1)).vertices.length
            = (boundary_uniform_refine d i).vertices.length
              + (boundary_uniform_refine d i).halfedge.length / 2 ∧
          ∀ j, j < (boundary_uniform_refine d i).halfedge.length / 2 →
            (boundary_uniform_refine d (i + 1)).vertices.getD
                ((boundary_uniform_refine d i).vertices.length + j) origin
              = edgeMidpoint (boundary_uniform_refine d i) j) ∧
    ((boundary_uniform_refine sqDomain 1).halfedge.length = 16 ∧
      (boundary_uniform_refine sqDomain 1).vertices.length = 8 ∧
      (boundary_uniform_refine sqDomain 1).vertices.getD 4 origin = (1/2, 0) ∧
      sqV.getD (heGet sqH (sel (mainMask sqH) 0)).target origin = (1, 0) ∧
      sqV.getD
          (heGet sqH (heGet sqH (sel (mainMask sqH) 0)).twin).target origin
        = (0, 0)) := by
  refine ⟨⟨uniform_refine_length d n hc hv, ?_⟩, by decide, by decide, ?_,
    rfl, rfl⟩
  · intro i _
    obtain ⟨hci, hvi⟩ := uniform_refine_counts d i hc hv
    rw [bur_succ]
    exact ⟨uniformStep_vlen _ hvi, fun j hj => uniformStep_new_vertex _ hvi j hj⟩
  · have h : (boundary_uniform_refine sqDomain 1).vertices.getD 4 origin
        = vmid (1, 0) (0, 0) := rfl
    rw [h]
    show ((1 + 0 : ℚ) / 2, (0 + 0 : ℚ) / 2) = ((1 / 2 : ℚ), (0 : ℚ))
    norm_num

theorem C2_witness :
    ((boundary_uniform_refine sqDomain 2).halfedge.length
        = sqDomain.halfedge.length * 2 ^ 2 ∧
      ∀ i, i < 2 →
        (boundary_uniform_refine sqDomain (i + 1)).vertices.length
            = (boundary_uniform_refine sqDomain i).vertices.length
              + (boundary_uniform_refine sqDomain i).halfedge.length / 2 ∧
          ∀ j, j < (boundary_uniform_refine sqDomain i).halfedge.length / 2 →
            (boundary_uniform_refine sqDomain (i + 1)).vertices.getD
                ((boundary_uniform_refine sqDomain i).vertices.length + j)
                origin
              = edgeMidpoint (boundary_uniform_refine sqDomain i) j) ∧
    ((boundary_uniform_refine sqDomain 1).halfedge.length = 16 ∧
      (boundary_uniform_refine sqDomain 1).vertices.length = 8 ∧
      (boundary_uniform_refine sqDomain 1).vertices.getD 4 origin = (1/2, 0) ∧
      sqV.getD (heGet sqH (sel (mainMask sqH) 0)).target origin = (1, 0) ∧
      sqV.getD
          (heGet sqH (heGet sqH (sel (mainMask sqH) 0)).twin).target origin
        = (0, 0)) :=
  C2_uniform_counts_and_midpoints sqDomain 2 (by decide) (by decide)

theorem uniformStep_old_vertex (d : HEDomain) (i : Nat)
    (hi : i < d.vertices.length) :
    (uniformStep d).vertices.getD i origin = d.vertices.getD i origin :=
  List.getD_append _ _ _ _ hi

theorem uniformStep_old_fixed (d : HEDomain) (i : Nat)
    (hi : i < d.fixed.length) :
    (uniformStep d).fixed.getD i false = d.fixed.getD i false :=
  List.getD_append _ _ _ _ hi

theorem uniformStep_new_fixed (d : HEDomain) (i : Nat)
    (hi : d.fixed.length ≤ i) :
    (uniformStep d).fixed.getD i false = false := by
  show (d.fixed ++ List.replicate _ false).getD i false = false
  rw [List.getD_append_right _ _ _ _ hi, List.getD_eq_getElem?_getD]
  simp

theorem uniformStep_old_region (d : HEDomain) (hc : d.NE = d.halfedge.length)
    (hv : validTopo d.halfedge = true) (i : Nat) (hi : i < d.halfedge.length) :
    (heGet (uniformStep d).halfedge i).region = (heGet d.halfedge i).region := by
  show (heGet (uNewH d.NV d.NE d.halfedge) i).region = _
  rw [hc, uNewH_old_getD d.NV d.halfedge hv i hi]

theorem uniformStep_new_region (d : HEDomain) (hc : d.NE = d.halfedge.length)
    (hv : validTopo d.halfedge = true) (k : Nat) (hk : k < d.halfedge.length) :
    (heGet (uniformStep d).halfedge (d.halfedge.length + k)).region
      = (heGet d.halfedge k).region := by
  show (heGet (uNewH d.NV d.NE d.halfedge) _).region = _
  rw [hc, uNewH_new_getD d.NV d.halfedge hv k hk]

theorem uniformStep_vlen_le (d : HEDomain) :
    d.vertices.length ≤ (uniformStep d).vertices.length := by
  show _ ≤ (d.vertices ++ _).length
  rw [List.length_append]
  omega

theorem uniformStep_flen_le (d : HEDomain) :
    d.fixed.length ≤ (uniformStep d).fixed.length := by
  show _ ≤ (d.fixed ++ _).length
  rw [List.length_append]
  omega

theorem uniformStep_hlen (d : HEDomain) (hc : d.NE = d.halfedge.length)
    (hv : validTopo d.halfedge = true) :
    (uniformStep d).halfedge.length = 2 * d.halfedge.length := by
  show (uNewH d.NV d.NE d.halfedge).length = _
  rw [hc, uNewH_length d.NV d.halfedge hv]

theorem uniform_refine_frame (d : HEDomain) (n : Nat)
    (hc : d.NE = d.halfedge.length) (hv : validTopo d.halfedge = true) :
    (∀ i, i < d.vertices.length →
      (boundary_uniform_refine d n).vertices.getD i origin
        = d.vertices.getD i origin) ∧
    (∀ i, i < d.fixed.length →
      (boundary_uniform_refine d n).fixed.getD i false
        = d.fixed.getD i false) ∧
    (∀ i, d.fixed.length ≤ i →
      (boundary_uniform_refine d n).fixed.getD i false = false) ∧
    (∀ i, i < d.halfedge.length →
      (heGet (boundary_uniform_refine d n).halfedge i).region
        = (heGet d.halfedge i).region) ∧
    d.vertices.length ≤ (boundary_uniform_refine d n).vertices.length ∧
    d.fixed.length ≤ (boundary_uniform_refine d n).fixed.length ∧
    d.halfedge.length ≤ (boundary_uniform_refine d n).halfedge.length := by
  induction n generalizing d with
  | zero =>
    exact ⟨fun i _ => rfl, fun i _ => rfl,
      fun i hi => List.getD_eq_default _ _ hi, fun i _ => rfl,
      Nat.le_refl _, Nat.le_refl _, Nat.le_refl _⟩
  | succ n ih =>
    obtain ⟨hc1, hv1⟩ := uniformStep_counts d hc hv
    obtain ⟨ihv, ihf, ihnf, ihr, ihlv, ihlf, ihlh⟩ := ih (uniformStep d) hc1 hv1
    have hstep : boundary_uniform_refine d (n + 1)
        = boundary_uniform_refine (uniformStep d) n := rfl
    rw [hstep]
    refine ⟨?_, ?_, ?_, ?_, ?_, ?_, ?_⟩
    · intro i hi
      rw [ihv i (Nat.lt_of_lt_of_le hi (uniformStep_vlen_le d)),
        uniformStep_old_vertex d i hi]
    · intro i hi
      rw [ihf i (Nat.lt_of_lt_of_le hi (uniformStep_flen_le d)),
        uniformStep_old_fixed d i hi]
    · intro i hi
      by_cases hi2 : i < (uniformStep d).fixed.length
      · rw [ihf i hi2, uniformStep_new_fixed d i hi]
      · exact ihnf i (Nat.le_of_not_lt hi2)
    · intro i hi
      have hi2 : i < (uniformStep d).halfedge.length := by
        rw [uniformStep_hlen d hc hv]
        omega
      rw [ihr i hi2, uniformStep_old_region d hc hv i hi]
    · exact Nat.le_trans (uniformStep_vlen_le d) ihlv
    · exact Nat.le_trans (uniformStep_flen_le d) ihlf
    · refine Nat.le_trans ?_ ihlh
      rw [uniformStep_hlen d hc hv]
      omega

theorem adaptive_old_vertex (d : HEDomain) (M : List Bool) (i : Nat)
    (hi : i < d.vertices.length) :
    (boundary_adaptive_refine d M none).vertices.getD i origin
      = d.vertices.getD i origin :=
  List.getD_append _ _ _ _ hi

theorem adaptive_old_fixed (d : HEDomain) (M : List Bool) (i : Nat)
    (hi : i < d.fixed.length) :
    (boundary_adaptive_refine d M none).fixed.getD i false
      = d.fixed.getD i false :=
  List.getD_append _ _ _ _ hi

theorem adaptive_new_fixed (d : HEDomain) (M : List Bool) (i : Nat)
    (hi : d.fixed.length ≤ i) :
    (boundary_adaptive_refine d M none).fixed.getD i false = false := by
  show (d.fixed ++ List.replicate _ false).getD i false = false
  rw [List.getD_append_right _ _ _ _ hi, List.getD_eq_getElem?_getD]
  simp

theorem adaptive_old_region (d : HEDomain) (M : List Bool)
    (hc : d.NE = d.halfedge.length) (hv : validTopo d.halfedge = true)
    (hM : M.length = d.halfedge.length) (i : Nat)
    (hi : i < d.halfedge.length) :
    (heGet (boundary_adaptive_refine d M none).halfedge i).region
      = (heGet d.halfedge i).region := by
  obtain ⟨ht, hp⟩ := (validTopo_iff _).mp hv
  show (heGet (aNewH d.NV d.NE M d.vertices d.halfedge none) i).region = _
  rw [hc, aNewH_old_getD d.NV d.halfedge M d.vertices ht hp hM i hi]

theorem adaptive_new_region (d : HEDomain) (M : List Bool)
    (hc : d.NE = d.halfedge.length) (hv : validTopo d.halfedge = true)
    (hM : M.length = d.halfedge.length) (k : Nat)
    (hk : k < cnt (aM1 d.halfedge M)) :
    (heGet (boundary_adaptive_refine d M none).halfedge
        (d.halfedge.length + k)).region
      = (heGet d.halfedge (sel (aM1 d.halfedge M) k)).region := by
  obtain ⟨ht, hp⟩ := (validTopo_iff _).mp hv
  show (heGet (aNewH d.NV d.NE M d.vertices d.halfedge none) _).region = _
  rw [hc, aNewH_new_getD d.NV d.halfedge M d.vertices ht hp hM k hk]

/-- C9: both in-place refinement calls only append.  Pre-existing vertex
positions and fixed flags are unchanged at their indices; every
pre-existing half-edge keeps its `region`; every new half-edge (row
`NE + k` of one level) carries the `region` of the half-edge it was split
from (row `k` for the uniform level; row `sel (aM1 H M) k`, the k-th marked
half-edge after twin-symmetrisation, for the adaptive call); every fixed
flag beyond the pre-existing ones reads `false`. -/
theorem C9_refine_append_only (d : HEDomain) (n : Nat) (M : List Bool)
    (hc : d.NE = d.halfedge.length) (hv : validTopo d.halfedge = true)
    (hM : M.length = d.halfedge.length) :
    ((∀ i, i < d.vertices.length →
        (boundary_uniform_refine d n).vertices.getD i origin
          = d.vertices.getD i origin) ∧
      (∀ i, i < d.fixed.length →
        (boundary_uniform_refine d n).fixed.getD i false
          = d.fixed.getD i false) ∧
      (∀ i, d.fixed.length ≤ i →
        (boundary_uniform_refine d n).fixed.getD i false = false) ∧
      (∀ i, i < d.halfedge.length →
        (heGet (boundary_uniform_refine d n).halfedge i).region
          = (heGet d.halfedge i).region) ∧
      (∀ i, i < n →
        ∀ k, k < (boundary_uniform_refine d i).halfedge.length →
          (heGet (boundary_uniform_refine d (i + 1)).halfedge
              ((boundary_uniform_refine d i).halfedge.length + k)).region
            = (heGet (boundary_uniform_refine d i).halfedge k).region)) ∧
    ((∀ i, i < d.vertices.length →
        (boundary_adaptive_refine d M none).vertices.getD i origin
          = d.vertices.getD i origin) ∧
      (∀ i, i < d.fixed.length →
        (boundary_adaptive_refine d M none).fixed.getD i false
          = d.fixed.getD i false) ∧
      (∀ i, d.fixed.length ≤ i →
        (boundary_adaptive_refine d M none).fixed.getD i false = false) ∧
      (∀ i, i < d.halfedge.length →
        (heGet (boundary_adaptive_refine d M none).halfedge i).region
          = (heGet d.halfedge i).region) ∧
      (∀ k, k < cnt (aM1 d.halfedge M) →
        (heGet (boundary_adaptive_refine d M none).halfedge
            (d.halfedge.length + k)).region
          = (heGet d.halfedge (sel (aM1 d.halfedge M) k)).region)) := by
  obtain ⟨huv, huf, hunf, hur, _, _, _⟩ := uniform_refine_frame d n hc hv
  refine ⟨⟨huv, huf, hunf, hur, ?_⟩,
    fun i hi => adaptive_old_vertex d M i hi,
    fun i hi => adaptive_old_fixed d M i hi,
    fun i hi => adaptive_new_fixed d M i hi,
    fun i hi => adaptive_old_region d M hc hv hM i hi,
    fun k hk => adaptive_new_region d M hc hv hM k hk⟩
  intro i _ k hk
  obtain ⟨hci, hvi⟩ := uniform_refine_counts d i hc hv
  rw [bur_succ]
  exact uniformStep_new_region _ hci hvi k hk

theorem C9_witness :
    ((∀ i, i < sqDomain.vertices.length →
        (boundary_uniform_refine sqDomain 2).vertices.getD i origin
          = sqDomain.vertices.getD i origin) ∧
      (∀ i, i < sqDomain.fixed.length →
        (boundary_uniform_refine sqDomain 2).fixed.getD i false
          = sqDomain.fixed.getD i false) ∧
      (∀ i, sqDomain.fixed.length ≤ i →
        (boundary_uniform_refine sqDomain 2).fixed.getD i false = false) ∧
      (∀ i, i < sqDomain.halfedge.length →
        (heGet (boundary_uniform_refine sqDomain 2).halfedge i).region
          = (heGet sqDomain.halfedge i).region) ∧
      (∀ i, i < 2 →
        ∀ k, k < (boundary_uniform_refine sqDomain i).halfedge.length →
          (heGet (boundary_uniform_refine sqDomain (i + 1)).halfedge
              ((boundary_uniform_refine sqDomain i).halfedge.length
                + k)).region
            = (heGet (boundary_uniform_refine sqDomain i).halfedge
                k).region)) ∧
    ((∀ i, i < sqDomain.vertices.length →
        (boundary_adaptive_refine sqDomain markOne none).vertices.getD i origin
          = sqDomain.vertices.getD i origin) ∧
      (∀ i, i < sqDomain.fixed.length →
        (boundary_adaptive_refine sqDomain markOne none).fixed.getD i false
          = sqDomain.fixed.getD i false) ∧
      (∀ i, sqDomain.fixed.length ≤ i →
        (boundary_adaptive_refine sqDomain markOne none).fixed.getD i false
          = false) ∧
      (∀ i, i < sqDomain.halfedge.length →
        (heGet (boundary_adaptive_refine sqDomain markOne none).halfedge
            i).region
          = (heGet sqDomain.halfedge i).region) ∧
      (∀ k, k < cnt (aM1 sqDomain.halfedge markOne) →
        (heGet (boundary_adaptive_refine sqDomain markOne none).halfedge
            (sqDomain.halfedge.length + k)).region
          = (heGet sqDomain.halfedge
              (sel (aM1 sqDomain.halfedge markOne) k)).region)) :=
  C9_refine_append_only sqDomain 2 markOne (by decide) (by decide) (by decide)

/-- C7: one uniform level creates, for each original half-edge `k` (of `NE`
total), exactly one new half-edge at row `NE + k`.  Contrary to the claim's
wiring, it is the NEW half-edge that receives the midpoint vertex as
target, inherits the OLD `prev`, `twin` and `primary` columns of row `k`,
and points `next` back at `k`; the original half-edge keeps its target and
is rewired with `prev := NE + k` (the new half-edge), `twin := NE +
twin(k)` and `next := NE + next(k)`. -/
theorem C7_uniform_split_wiring (d : HEDomain)
    (hc : d.NE = d.halfedge.length) (hv : validTopo d.halfedge = true)
    (k : Nat) (hk : k < d.halfedge.length) :
    heGet (boundary_uniform_refine d 1).halfedge (d.halfedge.length + k)
      = { target := d.NV + rk (mainMask d.halfedge) (mainOf d.halfedge k),
          region := (heGet d.halfedge k).region,
          next := k,
          prev := (heGet d.halfedge k).prev,
          twin := (heGet d.halfedge k).twin,
          primary := (heGet d.halfedge k).primary } ∧
    heGet (boundary_uniform_refine d 1).halfedge k
      = { target := (heGet d.halfedge k).target,
          region := (heGet d.halfedge k).region,
          next := d.halfedge.length + (heGet d.halfedge k).next,
          prev := d.halfedge.length + k,
          twin := d.halfedge.length + (heGet d.halfedge k).twin,
          primary := (heGet d.halfedge k).primary } := by
  constructor
  · show heGet (uNewH d.NV d.NE d.halfedge) _ = _
    rw [hc, uNewH_new_getD d.NV d.halfedge hv k hk]
  · show heGet (uNewH d.NV d.NE d.halfedge) _ = _
    rw [hc, uNewH_old_getD d.NV d.halfedge hv k hk]

theorem C7_witness :
    heGet (boundary_uniform_refine sqDomain 1).halfedge
        (sqDomain.halfedge.length + 0)
      = { target := sqDomain.NV
            + rk (mainMask sqDomain.halfedge) (mainOf sqDomain.halfedge 0),
          region := (heGet sqDomain.halfedge 0).region,
          next := 0,
          prev := (heGet sqDomain.halfedge 0).prev,
          twin := (heGet sqDomain.halfedge 0).twin,
          primary := (heGet sqDomain.halfedge 0).primary } ∧
    heGet (boundary_uniform_refine sqDomain 1).halfedge 0
      = { target := (heGet sqDomain.halfedge 0).target,
          region := (heGet sqDomain.halfedge 0).region,
          next := sqDomain.halfedge.length + (heGet sqDomain.halfedge 0).next,
          prev := sqDomain.halfedge.length + 0,
          twin := sqDomain.halfedge.length + (heGet sqDomain.halfedge 0).twin,
          primary := (heGet sqDomain.halfedge 0).primary } :=
  C7_uniform_split_wiring sqDomain (by decide) (by decide) 0 (by decide)

/-- Refutation of the claimed wiring on the unit square: the new half-edge
`8` created for half-edge `0` does NOT inherit `0`'s old `next` pointer
(it points back at `0` instead of at `next(0) = 1`), and half-edge `0`'s
target does NOT become a new midpoint vertex (all midpoint vertices have
index `≥ 4`; row `0` keeps target `1`). -/
theorem C7_counterexample :
    ¬((heGet (boundary_uniform_refine sqDomain 1).halfedge 8).next
        = (heGet sqH 0).next ∧
      4 ≤ (heGet (boundary_uniform_refine sqDomain 1).halfedge 0).target) := by
  decide

theorem uHba_getD (NE : Nat) (H : List HalfEdge) (i : Nat) (hi : i < H.length)
    (hNE : i < NE) :
    heGet (uHba NE H) i = { heGet H i with prev := NE + i } := by
  show (List.zipWith _ H (List.range' NE NE)).getD i zeroHE = _
  rw [tk_getD_zipWith _ H _ i hi (by rw [List.length_range']; exact hNE)
      zeroHE zeroHE 0,
    tk_getD_range' NE NE i hNE 0]
  rfl

theorem uHb_prev (NE : Nat) (H : List HalfEdge) (i : Nat) (hi : i < H.length)
    (hNE : i < NE) :
    (heGet (uHb NE H) i).prev = NE + i := by
  have hlu : i < (uHba NE H).length := by
    show i < (List.zipWith _ H (List.range' NE NE)).length
    rw [List.length_zipWith, List.length_range']
    omega
  show ((List.zipWith _ (uHba NE H) _).getD i zeroHE).prev = _
  rw [tk_getD_zipWith _ _ _ i hlu
      (by rw [List.length_map, List.length_map]; exact hlu) zeroHE zeroHE 0]
  show (heGet (uHba NE H) i).prev = _
  rw [uHba_getD NE H i hi hNE]

theorem uHb_ne (H : List HalfEdge) (hH : H ≠ [])
    (hv : validTopo H = true) : uHb H.length H ≠ H := by
  intro heq
  obtain ⟨_, hp⟩ := (validTopo_iff H).mp hv
  have h0 : 0 < H.length := List.length_pos.mpr hH
  have h1 : (heGet (uHb H.length H) 0).prev = H.length + 0 :=
    uHb_prev H.length H 0 h0 h0
  rw [heq] at h1
  have h2 : (heGet H 0).prev < H.length := (hp 0 h0).1
  omega

/-- C6: in functional mode (vertices and half-edge arrays supplied) neither
refinement method touches the domain's own state, and
`boundary_uniform_refine` does return the refined `(vertices, halfedge)`
pair, its returned vertex array extending the supplied one.  But contrary
to the claim, the supplied arrays are NOT left unmutated: both methods
overwrite the prev/twin columns of the caller's half-edge array in place
(lines 211-213 / 261-263 act on the array object before the concatenation
rebinds the local name), leaving it in the `uHb`/`aHb` state, which differs
from the original whenever the table is nonempty; and
`boundary_adaptive_refine` returns `(ec, halfedge)` — only the new edge
midpoints, not a refined vertex array — and also mutates the caller's
marking array by the twin-symmetrisation of line 185. -/
theorem C6_functional_mode_frame (d : HEDomain) (n : Nat) (M : List Bool)
    (V : List Vec2) (H : List HalfEdge) (hn : n ≠ 0) (hH : H ≠ [])
    (hV : V ≠ []) (hv : validTopo H = true) :
    (boundary_uniform_refine_method d n (some (V, H))).1 = d ∧
    (boundary_adaptive_refine_method d M (some (V, H)) none).1 = d ∧
    (boundary_uniform_refine_method d n (some (V, H))).2.1
      = some (V ++ uEc V H, uNewH V.length H.length H) ∧
    (V ++ uEc V H).take V.length = V ∧
    (boundary_adaptive_refine_method d M (some (V, H)) none).2.1
      = some (aEc M V H none, aNewH V.length H.length M V H none) ∧
    aEc M V H none ≠ V ++ aEc M V H none ∧
    (boundary_uniform_refine_method d n (some (V, H))).2.2
      = some (uHb H.length H) ∧
    uHb H.length H ≠ H ∧
    (boundary_adaptive_refine_method d M (some (V, H)) none).2.2
      = some (aM1 H M, aHb H.length M V H none) := by
  refine ⟨rfl, rfl, ?_, List.take_left V _, rfl, ?_, ?_, uHb_ne H hH hv, rfl⟩
  · show (boundary_uniform_refine_fn n V H).1 = _
    rw [boundary_uniform_refine_fn, if_neg hn]
  · intro heq
    have hlen := congrArg List.length heq
    rw [List.length_append] at hlen
    have hV' : 0 < V.length := List.length_pos.mpr hV
    omega
  · show some (boundary_uniform_refine_fn n V H).2 = _
    rw [boundary_uniform_refine_fn, if_neg hn]

theorem C6_witness :
    (boundary_uniform_refine_method sqDomain 1 (some (sqV, sqH))).1
        = sqDomain ∧
    (boundary_adaptive_refine_method sqDomain markOne (some (sqV, sqH))
          none).1
        = sqDomain ∧
    (boundary_uniform_refine_method sqDomain 1 (some (sqV, sqH))).2.1
      = some (sqV ++ uEc sqV sqH, uNewH sqV.length sqH.length sqH) ∧
    (sqV ++ uEc sqV sqH).take sqV.length = sqV ∧
    (boundary_adaptive_refine_method sqDomain markOne (some (sqV, sqH))
          none).2.1
      = some (aEc markOne sqV sqH none,
          aNewH sqV.length sqH.length markOne sqV sqH none) ∧
    aEc markOne sqV sqH none ≠ sqV ++ aEc markOne sqV sqH none ∧
    (boundary_uniform_refine_method sqDomain 1 (some (sqV, sqH))).2.2
      = some (uHb sqH.length sqH) ∧
    uHb sqH.length sqH ≠ sqH ∧
    (boundary_adaptive_refine_method sqDomain markOne (some (sqV, sqH))
          none).2.2
      = some (aM1 sqH markOne, aHb sqH.length markOne sqV sqH none) :=
  C6_functional_mode_frame sqDomain 1 markOne sqV sqH (by decide) (by decide)
    (by decide) (by decide)

/-- Refutation of the original C6 claim on the unit square: the uniform
functional call leaves the caller's half-edge array mutated (prev/twin
columns rewired), the adaptive functional call's returned vertex component
is not the refined vertex array (it has the wrong length, holding only the
new midpoints), and the supplied marking array itself is changed by the
twin-symmetrisation. -/
theorem C6_counterexample :
    (boundary_uniform_refine_fn 1 sqV sqH).2 ≠ sqH ∧
    ((boundary_adaptive_refine_fn (List.replicate 8 true) sqV sqH
          none).1.1).length
      ≠ (sqV ++ (boundary_adaptive_refine_fn (List.replicate 8 true) sqV sqH
          none).1.1).length ∧
    aM1 sqH markOne ≠ markOne := by
  refine ⟨?_, by decide, by decide⟩
  show uHb sqH.length sqH ≠ sqH
  decide

/-- C4: `is_intersect` never reports an intersection at all: line 517,
`isIntersect = flag & t >= 0.0 & t <= 1.0 & u >= 0.0 & u <= 1.0`, binds
`&` tighter than the comparisons, so its first evaluated operand is the
bitwise-and of a boolean mask with a float array (and subsequently of float
arrays with each other), which raises `TypeError` for every input — in
particular also for the crossing pair `p0=(0,0), p1=(1,1), v0=(0,1),
v1=(1,0)` that the spec requires to report the intersection `(0.5, 0.5)`,
and for the parallel pair `p0=(0,0), p1=(1,0), v0=(0,1), v1=(1,1)`. -/
theorem C4_is_intersect_typeerror :
    (∀ p0 p1 v0 v1 : List Vec2,
      is_intersect p0 p1 v0 v1 = Except.error "TypeError") ∧
    is_intersect [(0, 0)] [(1, 1)] [(0, 1)] [(1, 0)]
      = Except.error "TypeError" ∧
    is_intersect [(0, 0)] [(1, 0)] [(0, 1)] [(1, 1)]
      = Except.error "TypeError" :=
  ⟨fun _ _ _ _ => rfl, rfl, rfl⟩

/-- C5: `create_voronoi_1` contains no iteration cap and surfaces no
convergence-failure condition; in fact its adaptive boundary-clipping loop
is unreachable.  For every domain, generator point set and scipy output,
the method raises `TypeError` at line 411, where `rv[:, 0]` tuple-indexes
the plain Python list `voronoi.ridge_vertices`, before the generator
adjacency matrix is built or the `while True` loop is entered. -/
theorem C5_create_voronoi_typeerror (d : HEDomain) (points : List Vec2)
    (vorVertices : List Vec2) (ridgePoints : List (Nat × Nat))
    (ridgeVertices : List (List Int)) :
    create_voronoi_1 d points vorVertices ridgePoints ridgeVertices
      = Except.error "TypeError" :=
  rfl

theorem npResize_length {α : Type} [Inhabited α] (d : List α) (n : Nat) :
    (npResize d n).length = n := by
  rw [npResize, List.length_map, List.length_range]

/-- C8: `increase_size(n)` on a `DynamicArray` of size `S` and capacity `C`
(backing store of length `C`) returns the view `data[S : S+n)` of the
post-call backing store (of length exactly `n`) and sets `size := S + n`.
Contrary to the claim, the capacity is left unchanged only when `S + n <
C`: the resize test of line 99 is `required_size >= self.capacity`, so
already at `S + n = C` — where appending would exactly fill the existing
capacity — the array grows to `max(2*C, S+n)`. -/
theorem C8_increase_size_spec {α : Type} [Inhabited α] (a : DynamicArray α)
    (n : Nat) (hd : a.data.length = a.capacity) :
    (a.increase_size n).2.size = a.size + n ∧
    (a.increase_size n).1
      = ((a.increase_size n).2.data.drop a.size).take n ∧
    ((a.increase_size n).1).length = n ∧
    (a.size + n < a.capacity →
      (a.increase_size n).2.capacity = a.capacity) ∧
    (a.capacity ≤ a.size + n →
      (a.increase_size n).2.capacity = max (2 * a.capacity) (a.size + n)) := by
  by_cases hcap : a.capacity ≤ a.size + n
  · have he : a.increase_size n
        = (((a.resize (max (2 * a.capacity) (a.size + n))).data.drop
              a.size).take n,
           { a.resize (max (2 * a.capacity) (a.size + n)) with
              size := a.size + n }) := by
      simp only [DynamicArray.increase_size, if_pos hcap,
        Nat.add_sub_cancel_left]
    rw [he]
    have hlen : (a.resize (max (2 * a.capacity) (a.size + n))).data.length
        = max (2 * a.capacity) (a.size + n) := by
      show (npResize a.data _).length = _
      rw [npResize_length]
    refine ⟨rfl, rfl, ?_, fun hlt => absurd hlt (by omega), fun _ => rfl⟩
    rw [List.length_take, List.length_drop, hlen]
    omega
  · have he : a.increase_size n
        = ((a.data.drop a.size).take n, { a with size := a.size + n }) := by
      simp only [DynamicArray.increase_size, if_neg hcap,
        Nat.add_sub_cancel_left]
    rw [he]
    refine ⟨rfl, rfl, ?_, fun _ => rfl, fun hle => absurd hle hcap⟩
    rw [List.length_take, List.length_drop, hd]
    omega

theorem C8_witness :
    (da0.increase_size 2).2.size = da0.size + 2 ∧
    (da0.increase_size 2).1
      = ((da0.increase_size 2).2.data.drop da0.size).take 2 ∧
    ((da0.increase_size 2).1).length = 2 ∧
    (da0.size + 2 < da0.capacity →
      (da0.increase_size 2).2.capacity = da0.capacity) ∧
    (da0.capacity ≤ da0.size + 2 →
      (da0.increase_size 2).2.capacity = max (2 * da0.capacity)
        (da0.size + 2)) :=
  C8_increase_size_spec da0 2 (by decide)

/-- Refutation of the claimed growth condition at the boundary case: for
`da0` (size 1, capacity 2), appending one element would exactly fill the
existing capacity (`size + 1 ≤ capacity`), yet `increase_size 1` does not
leave the capacity unchanged — it resizes to `max(2*2, 2) = 4`. -/
theorem C8_counterexample :
    da0.size + 1 ≤ da0.capacity ∧
    (da0.increase_size 1).2.capacity ≠ da0.capacity := by
  decide

theorem applyOp_spec {α : Type} [Inhabited α] (a c : DynamicArray α)
    (op : DAOp α) (h : applyOp a op = some c) :
    c.shape0 = a.shape0 ∧ (c.size : Int) = a.size + op.delta := by
  cases op with
  | inc s =>
    simp only [applyOp, Option.some.injEq] at h
    subst h
    by_cases hcap : a.capacity ≤ a.size + s
    · refine ⟨?_, ?_⟩
      · simp only [DynamicArray.increase_size, DynamicArray.resize,
          if_pos hcap]
      · show ((a.size + s : Nat) : Int) = (a.size : Int) + (s : Int)
        push_cast
        ring
    · refine ⟨?_, ?_⟩
      · simp only [DynamicArray.increase_size, if_neg hcap]
      · show ((a.size + s : Nat) : Int) = (a.size : Int) + (s : Int)
        push_cast
        ring
  | dec s =>
    simp only [applyOp, DynamicArray.decrease_size] at h
    by_cases hs : s ≤ a.size
    · rw [if_pos hs, Option.map_some'] at h
      have hc := Option.some.inj h
      subst hc
      refine ⟨rfl, ?_⟩
      show ((a.size - s : Nat) : Int) = (a.size : Int) + -(s : Int)
      omega
    · rw [if_neg hs] at h
      simp at h
  | ext v =>
    simp only [applyOp, Option.some.injEq] at h
    subst h
    by_cases hcap : a.capacity ≤ a.size + v.length
    · refine ⟨?_, ?_⟩
      · simp only [DynamicArray.extend, DynamicArray.resize, if_pos hcap]
      · show ((a.size + v.length : Nat) : Int)
          = (a.size : Int) + (v.length : Int)
        push_cast
        ring
    · refine ⟨?_, ?_⟩
      · simp only [DynamicArray.extend, if_neg hcap]
      · show ((a.size + v.length : Nat) : Int)
          = (a.size : Int) + (v.length : Int)
        push_cast
        ring

theorem applyOps_spec {α : Type} [Inhabited α] (ops : List (DAOp α))
    (a b : DynamicArray α) (h : applyOps ops a = some b) :
    b.shape0 = a.shape0 ∧ (b.size : Int) = a.size + netDelta ops := by
  induction ops generalizing a with
  | nil =>
    simp only [applyOps, Option.some.injEq] at h
    subst h
    refine ⟨rfl, ?_⟩
    simp [netDelta]
  | cons op ops ih =>
    simp only [applyOps] at h
    cases hop : applyOp a op with
    | none => rw [hop] at h; simp at h
    | some c =>
      rw [hop] at h
      obtain ⟨h1, h2⟩ := applyOp_spec a c op hop
      obtain ⟨h3, h4⟩ := ih c h
      refine ⟨h3.trans h1, ?_⟩
      rw [h4, h2]
      show _ = _ + ((op :: ops).map DAOp.delta).sum
      rw [List.map_cons, List.sum_cons]
      show (a.size : Int) + op.delta + netDelta ops
        = (a.size : Int) + (op.delta + netDelta ops)
      ring

/-- C10: `__len__` returns `shape[0]` as recorded at construction
(`DynamicArray.len = shape0`), while `increase_size`, `decrease_size` and
`extend` update only the `size` field and never `shape`; hence after any
sequence of such operations with nonzero net size change, `len` (still the
construction-time length) differs from `size`, the number of live elements
actually addressed by indexing. -/
theorem C10_len_vs_size {α : Type} [Inhabited α] (xs : List α) (cap : Nat)
    (ops : List (DAOp α)) (b : DynamicArray α)
    (h : applyOps ops (DynamicArray.fromList xs cap) = some b) :
    b.len = xs.length ∧
    b.shape0 = (DynamicArray.fromList xs cap).shape0 ∧
    (b.size : Int) = xs.length + netDelta ops ∧
    (netDelta ops ≠ 0 → b.len ≠ b.size) := by
  obtain ⟨h1, h2⟩ := applyOps_spec ops (DynamicArray.fromList xs cap) b h
  have hlen : b.len = xs.length := h1
  have hsz : (b.size : Int) = xs.length + netDelta ops := h2
  refine ⟨hlen, h1, hsz, ?_⟩
  intro hnz heq
  rw [heq] at hlen
  apply hnz
  have : (b.size : Int) = (xs.length : Int) := by
    rw [← hlen]
  omega

theorem C10_witness :
    ({ shape0 := 1, size := 3, capacity := 4, data := [0, 0, 0, 0] }
        : DynamicArray Nat).len = [0].length ∧
    ({ shape0 := 1, size := 3, capacity := 4, data := [0, 0, 0, 0] }
        : DynamicArray Nat).shape0
      = (DynamicArray.fromList [0] 2).shape0 ∧
    ((({ shape0 := 1, size := 3, capacity := 4, data := [0, 0, 0, 0] }
        : DynamicArray Nat).size : Int))
      = [0].length + netDelta ([DAOp.inc 2] : List (DAOp Nat)) ∧
    (netDelta ([DAOp.inc 2] : List (DAOp Nat)) ≠ 0 →
      ({ shape0 := 1, size := 3, capacity := 4, data := [0, 0, 0, 0] }
        : DynamicArray Nat).len
        ≠ ({ shape0 := 1, size := 3, capacity := 4, data := [0, 0, 0, 0] }
        : DynamicArray Nat).size) :=
  C10_len_vs_size [0] 2 [DAOp.inc 2]
    { shape0 := 1, size := 3, capacity := 4, data := [0, 0, 0, 0] }
    (by decide)
